import Mathlib

/-!
Verification development for the medscena scenario service
(`src/controllers/scenarioController.js`).

The JavaScript source is shallowly embedded: strings are `String`
(a structure over `List Char`); the regex-based slicing of
`parseScenarios` is embedded as explicit scanners over `List Char`
that reproduce the semantics of the concrete regexes used by the
source on the inputs it actually receives.  Whitespace is modelled as
the common ASCII whitespace set recognised both by JavaScript `\s`
and string `trim`.  JavaScript case-insensitive matching is modelled
by ASCII case folding, which agrees with the source for the ASCII
markers it searches for.  Lines fed to the per-line option regex come
from `split('\n')` and are therefore free of `'\n'`; the embedding of
that regex assumes line-terminator-free lines, which is faithful for
every reachable input.
-/

set_option maxRecDepth 200000

namespace Medscena

/-- ASCII whitespace (space, tab, newline, carriage return), as
recognised by both the JS `\s` class and `String.prototype.trim` on
the inputs this service handles. -/
def wsChar (c : Char) : Bool :=
  c.toNat = 32 || c.toNat = 9 || c.toNat = 10 || c.toNat = 13

/-- Left trim on character lists (`trimStart`). -/
def ltrimL (l : List Char) : List Char := l.dropWhile wsChar

/-- Right trim on character lists (`trimEnd`). -/
def rtrimL (l : List Char) : List Char := (ltrimL l.reverse).reverse

/-- JS `String.prototype.trim` on character lists. -/
def trimL (l : List Char) : List Char := rtrimL (ltrimL l)

/-- JS `String.prototype.trim` on strings. -/
def trimS (s : String) : String := ⟨trimL s.data⟩

/-- ASCII decimal digit (`\d`). -/
def isDigitChar (c : Char) : Bool := 48 ≤ c.toNat && c.toNat ≤ 57

/-- ASCII upper-case letter. -/
def isUpperChar (c : Char) : Bool := 65 ≤ c.toNat && c.toNat ≤ 90

/-- ASCII case-insensitive character comparison, modelling the `i`
regex flag on the ASCII patterns the source matches. -/
def ciEq (a b : Char) : Bool :=
  a.toNat = b.toNat
    || (isUpperChar a && b.toNat = a.toNat + 32)
    || (isUpperChar b && a.toNat = b.toNat + 32)

/-- The term `pat` is a case-insensitive prefix of `l`. -/
def ciLeads : List Char → List Char → Bool
  | [], _ => true
  | _ :: _, [] => false
  | p :: ps, c :: cs => ciEq p c && ciLeads ps cs

/-- Index of the first case-insensitive occurrence of `pat` in `l`
(the position at which a case-insensitive regex literal matches). -/
def findCI (pat : List Char) : List Char → Option Nat
  | [] => if ciLeads pat [] then some 0 else none
  | c :: rest =>
    if ciLeads pat (c :: rest) then some 0
    else (findCI pat rest).map (· + 1)

/-- The term `pat` is an exact (case-sensitive) prefix of `l`. -/
def leadsL : List Char → List Char → Bool
  | [], _ => true
  | _ :: _, [] => false
  | p :: ps, c :: cs => p = c && leadsL ps cs

/-- Index of the first exact occurrence of `pat` in `l`
(JS `String.prototype.indexOf`). -/
def findSub (pat : List Char) : List Char → Option Nat
  | [] => if leadsL pat [] then some 0 else none
  | c :: rest =>
    if leadsL pat (c :: rest) then some 0
    else (findSub pat rest).map (· + 1)

/-- Replace the first exact occurrence of `pat` in `l` by `repl`
(JS `String.prototype.replace` with a string pattern). -/
def replaceFirstL (l pat repl : List Char) : List Char :=
  match findSub pat l with
  | none => l
  | some p => l.take p ++ repl ++ l.drop (p + pat.length)

/-- JS `split('\n')` on character lists. -/
def splitLines : List Char → List (List Char)
  | [] => [[]]
  | c :: rest =>
    if c = '\n' then [] :: splitLines rest
    else
      match splitLines rest with
      | l :: ls => (c :: l) :: ls
      | [] => [[c]]

/-- JS `Array.prototype.join('\n')`. -/
def joinNL : List (List Char) → List Char
  | [] => []
  | [l] => l
  | l :: rest => l ++ '\n' :: joinNL rest

/-- JS `Array.prototype.join(', ')` for the validator error list. -/
def joinComma : List String → String
  | [] => ""
  | [s] => s
  | s :: rest => s ++ ", " ++ joinComma rest

/-- Structured scenario record built by `parseScenarios`
(`src/controllers/scenarioController.js`, lines 240-247). -/
structure Scenario where
  id : String
  presentation : String
  question : String
  answer : String
  options : List String
  markingCriteria : List String
deriving Repr, DecidableEq

/-- The list of violation messages collected by `validateScenario`
(`scenarioController.js`, lines 7-29).  All five rules are evaluated
independently; JS falsiness of the empty string gives the
`scenario.x = ""` disjuncts. -/
def validationErrors (scenario : Scenario) (format : String) : List String :=
  (if scenario.presentation = "" ∨ scenario.presentation.length < 20 then
    ["Missing or too short patient presentation"] else []) ++
  (if scenario.question = "" ∨ scenario.question.length < 10 then
    ["Missing or too short question section"] else []) ++
  (if scenario.answer = "" ∨ scenario.answer.length < 20 then
    ["Missing or too short answer section"] else []) ++
  (if format = "sba" ∧ scenario.options.length ≠ 5 then
    ["SBA format requires exactly 5 options (found " ++
      toString scenario.options.length ++ ")"] else []) ++
  (if format = "osce" ∧ scenario.markingCriteria.length < 5 then
    ["OSCE format requires at least 5 marking criteria"] else [])

/-- The term `validateScenario` (`scenarioController.js`, lines 7-31):
`null` when no rule fails, otherwise the messages joined with ", ". -/
def validateScenario (scenario : Scenario) (format : String) : Option String :=
  let errors := validationErrors scenario format
  if errors = [] then none else some (joinComma errors)

/-- Match of the block-boundary regex `/Scenario (\d+):?/i` at the head
of the list: returns the captured digits and the remainder after the
match (`\d+` greedy, the colon consumed when present). -/
def markerAt (l : List Char) : Option (List Char × List Char) :=
  if ciLeads "Scenario ".data l then
    let rest := l.drop 9
    let digits := rest.takeWhile isDigitChar
    if digits = [] then none
    else
      match rest.drop digits.length with
      | ':' :: rest3 => some (digits, rest3)
      | rest2 => some (digits, rest2)
  else none

/-- First match of `/Scenario (\d+):?/i` anywhere in the list:
captured digits and the remainder after the match. -/
def findMarker : List Char → Option (List Char × List Char)
  | [] => none
  | c :: rest =>
    match markerAt (c :: rest) with
    | some r => some r
    | none => findMarker rest

/-- One fuel-indexed step of JS `split(/Scenario (\d+):?/i)`: returns
the piece before the first match and the list of (captured digits,
following piece) pairs.  With `fuel ≥ length` this is exactly the JS
split output `[pre, d1, p1, d2, p2, ...]` regrouped as
`(pre, [(d1,p1), (d2,p2), ...])`. -/
def splitScenarioScan : Nat → List Char → List Char × List (List Char × List Char)
  | 0, l => (l, [])
  | _ + 1, [] => ([], [])
  | fuel + 1, c :: rest =>
    match markerAt (c :: rest) with
    | some (digits, remainder) =>
      let next := splitScenarioScan fuel remainder
      ([], (digits, next.1) :: next.2)
    | none =>
      let next := splitScenarioScan fuel rest
      (c :: next.1, next.2)

/-- Reconstructed block string `Scenario ${id}:\n${content}`
(`scenarioController.js`, line 235). -/
def mkBlockL (id content : List Char) : List Char :=
  "Scenario ".data ++ id ++ ':' :: '\n' :: content

/-- The block-collection loop (`scenarioController.js`, lines 231-237):
each (id, content) pair with both parts non-empty becomes a
reconstructed block. -/
def collectBlocks : List (List Char × List Char) → List (List Char)
  | [] => []
  | (id, content) :: rest =>
    if id ≠ [] && content ≠ [] then mkBlockL id content :: collectBlocks rest
    else collectBlocks rest

/-- All reconstructed scenario blocks of the cleaned text. -/
def scenarioBlocksOf (cleaned : List Char) : List (List Char) :=
  collectBlocks (splitScenarioScan cleaned.length cleaned).2

/-- End of the presentation capture: the non-greedy
`([\s\S]*?)(?=(?:Question:|Answer:|$))` stops at the first
case-insensitive `Question:` or `Answer:` after the marker, or at the
end of the block. -/
def headingStop (l : List Char) : Nat :=
  match findCI "Question:".data l, findCI "Answer:".data l with
  | some q, some a => min q a
  | some q, none => q
  | none, some a => a
  | none, none => l.length

/-- Capture of `/Scenario \d+:?([\s\S]*?)(?=(?:Question:|Answer:|$))/i`
(`scenarioController.js`, line 259). -/
def presentationRaw (b : List Char) : Option (List Char) :=
  (findMarker b).map (fun r => r.2.take (headingStop r.2))

/-- Capture of `/Question:([\s\S]*?)(?=Answer:|$)/i`
(`scenarioController.js`, line 267). -/
def questionRaw (b : List Char) : Option (List Char) :=
  (findCI "Question:".data b).map (fun p =>
    let after := b.drop (p + 9)
    after.take ((findCI "Answer:".data after).getD after.length))

/-- Capture of `/Answer:([\s\S]*)/i` (`scenarioController.js`,
line 275). -/
def answerRaw (b : List Char) : Option (List Char) :=
  (findCI "Answer:".data b).map (fun p => b.drop (p + 7))

/-- Field assignment guard (`if (m && m[1].trim().length > 0)`): the
field keeps `''` both when the regex fails and when the trimmed
capture is empty, so it is the trimmed capture in every case. -/
def fieldOf : Option (List Char) → List Char
  | some cap => trimL cap
  | none => []

/-- Per-line success of `/^([A-E])[).]\s*(.+)$/` on a trimmed,
line-terminator-free line: a single upper-case letter A-E, `)` or
`.`, then at least one further character. -/
def sbaPat : List Char → Bool
  | c1 :: c2 :: rest =>
    (('A' ≤ c1 && c1 ≤ 'E') && (c2 = ')' || c2 = '.')) && rest ≠ []
  | _ => false

/-- The stem/option separation loop (`scenarioController.js`, lines
284-296).  The regex object carries the `g` flag, so `.test` resumes
from `lastIndex`: after a successful match (which consumes the whole
line) `lastIndex` is the line length, and the next `.test` call fails
(the `^` anchor cannot match at a positive index of a
line-terminator-free line) and resets `lastIndex` to 0.  The fold
therefore threads `lastIndex` through the lines. -/
def sbaSplit : List (List Char) → Nat → List (List Char) × List (List Char)
  | [], _ => ([], [])
  | line :: rest, lastIndex =>
    let t := trimL line
    if lastIndex = 0 && sbaPat t then
      let next := sbaSplit rest t.length
      (next.1, t :: next.2)
    else
      let next := sbaSplit rest 0
      (t :: next.1, next.2)

/-- The term `opt.replace(/^[A-E][).]\s*/, '')` (`scenarioController.js`,
line 298). -/
def stripOpt (t : List Char) : List Char :=
  match t with
  | c1 :: c2 :: rest =>
    if ('A' ≤ c1 && c1 ≤ 'E') && (c2 = ')' || c2 = '.') then
      rest.dropWhile wsChar
    else t
  | _ => t

/-- SBA refinement of the question field (`scenarioController.js`,
lines 283-299): stem lines re-joined and trimmed, option lines with
their letter marker stripped and trimmed. -/
def sbaRefine (question : List Char) : List Char × List (List Char) :=
  let next := sbaSplit (splitLines question) 0
  (trimL (joinNL next.1), next.2.map (fun o => trimL (stripOpt o)))

/-- Heading alternative `(Marking Criteria|Key Points)` matched
case-insensitively at the head of the list; returns the matched
heading length. -/
def osceHeadAt (l : List Char) : Option Nat :=
  if ciLeads "Marking Criteria".data l then some 16
  else if ciLeads "Key Points".data l then some 10
  else none

/-- First position and length of a `(Marking Criteria|Key Points)`
heading in the answer. -/
def findOsceHead : List Char → Option (Nat × Nat)
  | [] => none
  | c :: rest =>
    match osceHeadAt (c :: rest) with
    | some len => some (0, len)
    | none => (findOsceHead rest).map (fun r => (r.1 + 1, r.2))

/-- The term `line.replace(/^[\-\*]\s*/, '')` (`scenarioController.js`,
line 308). -/
def stripBullet : List Char → List Char
  | [] => []
  | c :: rest =>
    if c = '-' || c = '*' then rest.dropWhile wsChar
    else c :: rest

/-- OSCE refinement of the answer field (`scenarioController.js`,
lines 302-313): on a `/(Marking Criteria|Key Points):?([\s\S]*)/i`
match with non-empty trimmed capture, split the capture into lines,
strip bullets, drop empties, and delete the whole matched span from
the answer (`replace` of the matched string by `''`, then trim). -/
def osceRefine (answer : List Char) : List Char × List (List Char) :=
  match findOsceHead answer with
  | none => (answer, [])
  | some (pos, hlen) =>
    let cap2 :=
      match answer.drop (pos + hlen) with
      | ':' :: r => r
      | r => r
    if trimL cap2 ≠ [] then
      ((trimL (replaceFirstL answer (answer.drop pos) [])),
        ((splitLines cap2).map (fun line => trimL (stripBullet line))).filter
          (fun line => line ≠ []))
    else (answer, [])

/-- Id extraction (`scenarioController.js`, lines 251-254): first
match of the marker pattern, with the default `0`. -/
def idOf (block : List Char) : String :=
  match findMarker block with
  | some r => String.mk r.1
  | none => "0"

/-- The assigned presentation field of a block. -/
def presOf (block : List Char) : List Char :=
  fieldOf (presentationRaw block)

/-- The assigned question field of a block, before refinement. -/
def q0Of (block : List Char) : List Char :=
  fieldOf (questionRaw block)

/-- The assigned answer field of a block, before refinement. -/
def a0Of (block : List Char) : List Char :=
  fieldOf (answerRaw block)

/-- Per-block processing body (`scenarioController.js`, lines
239-324, the `try` body): id, presentation, question and answer
extraction followed by the format-specific refinements. -/
def processBlockCore (format : String) (block : List Char) : Scenario :=
  let qo := if format = "sba" then sbaRefine (q0Of block) else (q0Of block, [])
  let ac := if format = "osce" then osceRefine (a0Of block) else (a0Of block, [])
  { id := idOf block
    presentation := ⟨presOf block⟩
    question := ⟨qo.1⟩
    answer := ⟨ac.1⟩
    options := qo.2.map String.mk
    markingCriteria := ac.2.map String.mk }

/-- The cleaned text actually split into blocks, or `none` when
parsing bails out (`scenarioController.js`, lines 208-221): trim,
then if the text does not start with the literal `Scenario`, prepend
`Scenario 1:\n` when a case-sensitive `Question:` exists and give up
otherwise. -/
def cleanedTextOf (text : String) : Option (List Char) :=
  let cleaned := trimL text.data
  if leadsL "Scenario".data cleaned then some cleaned
  else
    match findSub "Question:".data cleaned with
    | some _ => some ("Scenario 1:\n".data ++ cleaned)
    | none => none

/-- The detected blocks of a raw text: the list the per-block map of
`parseScenarios` runs over. -/
def parseBlocksOf (text : String) : List (List Char) :=
  match cleanedTextOf text with
  | none => []
  | some ct => scenarioBlocksOf ct

/-- The term `parseScenarios` (`scenarioController.js`, lines 207-325). -/
def parseScenarios (text : String) (format : String) : List Scenario :=
  match cleanedTextOf text with
  | none => []
  | some ct => (scenarioBlocksOf ct).map (processBlockCore format)

/-- The `catch` handler of the per-block `try` (`scenarioController.js`,
lines 315-321): presentation, question and answer of the partially
built scenario are reset to empty strings; id, options and marking
criteria keep whatever was set before the exception. -/
def resetFields (s : Scenario) : Scenario :=
  { s with presentation := "", question := "", answer := "" }

/-- Per-block processing with the `try`/`catch` boundary made explicit:
`fault = none` models a run of the `try` body without an exception,
`fault = some st` models an exception thrown while the mutable
scenario object held state `st`, answered by the `catch` reset. -/
def processBlockCaught (format : String) (fault : Option Scenario)
    (block : List Char) : Scenario :=
  match fault with
  | none => processBlockCore format block
  | some st => resetFields st

/-- Map with the block index, used to address per-block faults. -/
def mapIdxGo (f : Nat → List Char → Scenario) : Nat → List (List Char) → List Scenario
  | _, [] => []
  | i, b :: bs => f i b :: mapIdxGo f (i + 1) bs

/-- The term `parseScenarios` with an explicit per-block fault oracle:
`faults i = some st` injects an exception into the processing of the
`i`-th detected block. -/
def parseScenariosFaulty (text : String) (format : String)
    (faults : Nat → Option Scenario) : List Scenario :=
  match cleanedTextOf text with
  | none => []
  | some ct =>
    mapIdxGo (fun i b => processBlockCaught format (faults i) b) 0 (scenarioBlocksOf ct)

/-- The term `difficultyMap` (`scenarioController.js`, lines 52-56); indexing
with an unknown key yields JS `undefined`, modelled as `none`. -/
def difficultyMap (d : String) : Option String :=
  if d = "basic" then some "first or second year medical student"
  else if d = "intermediate" then some "third year medical student on clinical rotations"
  else if d = "advanced" then some "fourth year medical student or resident"
  else none

/-- A `formatMap` entry (`scenarioController.js`, lines 58-75). -/
structure FormatSpec where
  description : String
  requirements : String
deriving Repr, DecidableEq

/-- The term `formatMap` (`scenarioController.js`, lines 58-75). -/
def formatMap (f : String) : Option FormatSpec :=
  if f = "long" then
    some ⟨"detailed narrative format",
      "Provide comprehensive explanations and reasoning. Ensure answers are prose."⟩
  else if f = "short" then
    some ⟨"concise bullet points",
      "Keep responses brief but clinically accurate, using bullet points in answers."⟩
  else if f = "sba" then
    some ⟨"single best answer question format",
      "Include exactly 5 options (A-E) with one clearly correct answer. Options must be within the \"Question:\" section. The \"Answer:\" section must clearly state the correct option and provide detailed reasoning."⟩
  else if f = "osce" then
    some ⟨"OSCE station style",
      "Include a \"Marking Criteria:\" section within the \"Answer:\" with at least 5 key points to cover, using bullet points."⟩
  else none

/-- JS template interpolation of a possibly-undefined value: the
string `undefined` is embedded when the lookup misses. -/
def jsShow : Option String → String
  | some s => s
  | none => "undefined"

/-- The prompt template (`scenarioController.js`, lines 77-112).
Indexing `formatMap` with an unknown format and then reading
`.description` throws a `TypeError` in the source; this is the
`Except.error` case.  An unknown difficulty merely interpolates the
string `undefined`. -/
def buildPrompt (topic : String) (count : Nat) (difficulty format language : String) :
    Except String String :=
  match formatMap format with
  | none => .error "Cannot read properties of undefined (reading description)"
  | some fm =>
    .ok
      ("You are a medical education expert creating clinical scenario questions for "
        ++ jsShow (difficultyMap difficulty) ++ ".\nLanguage: "
        ++ (if language = "" then "English" else language)
        ++ "\nFormat: " ++ fm.description
        ++ "\n\nFor the topic: " ++ topic
        ++ "\n\nGenerate " ++ toString count
        ++ " high-quality clinical scenario questions. Each scenario must strictly follow this structure:\n\n"
        ++ "Scenario #: [Patient Presentation goes here. This should be a detailed narrative including history, physical exam findings, and diagnostic test results.]\n\n"
        ++ "Question: [Clear clinical question asking what to do next or for diagnosis/management. For SBA, include A) B) C) D) E) options here.]\n\n"
        ++ "Answer: [Detailed explanation, including:\n  * The most likely diagnosis\n  * Diagnostic approach\n  * Immediate management steps\n  * Key teaching points\n  * Relevant differential diagnoses\n  "
        ++ (if format = "osce" then "Marking Criteria: [At least 5 bullet points for grading.]" else "")
        ++ "\n]\n\nAdditional requirements for " ++ fm.description ++ " format:\n"
        ++ fm.requirements
        ++ "\n\nGeneral requirements for all formats:\n- Ensure a realistic patient case appropriate for "
        ++ jsShow (difficultyMap difficulty)
        ++ ".\n- Challenge the student\x27s diagnostic reasoning.\n- Cover important learning points about the topic.\n- Include references to latest guidelines where applicable.\n- Highlight red flag symptoms when relevant.\n- Provide estimated prevalence if discussing rare conditions.\n- **IMPORTANT: Each scenario MUST start with \"Scenario #:\" (e.g., \"Scenario 1:\").**\n- **IMPORTANT: Ensure each section is substantial and not empty.**\n- **IMPORTANT: The \"Question:\" and \"Answer:\" headings MUST be present and exact.**")

/-- Request body fields used by `generateScenarios`; JS-falsy string
fields are modelled as `""` and a falsy count as `0`. -/
structure GenRequest where
  topic : String
  count : Nat
  difficulty : String
  format : String
  language : String
deriving Repr, DecidableEq

/-- Success metadata (`scenarioController.js`, lines 148-156); the
`generatedAt` timestamp is an external clock read and is omitted. -/
structure Metadata where
  topic : String
  requestedCount : Nat
  generatedCount : Nat
  difficulty : String
  format : String
  language : String
deriving Repr, DecidableEq

/-- The `details` payload of the all-invalid 500 response
(`scenarioController.js`, line 140): when some candidates were
rejected, the source serialises the rejected (scenario, reasons)
pairs with `JSON.stringify`; that structured payload is carried
directly.  Otherwise the fixed no-content message is sent. -/
inductive FailDetails where
  | allFailed (invalid : List (Scenario × String))
  | noContent
deriving Repr, DecidableEq

/-- The four response shapes of `generateScenarios`
(`scenarioController.js`, lines 38-165): the 400 missing-fields
response, the all-invalid 500 response, the top-level catch-all 500
response, and the success payload. -/
inductive GenResult where
  | badRequest (error : String)
  | allInvalid (error : String) (details : FailDetails)
  | serverFault (error : String) (details : String)
  | success (scenarios : List Scenario) (metadata : Metadata)
deriving Repr, DecidableEq

/-- No case-insensitive occurrence of the block-boundary pattern
`Scenario <digits>` anywhere in the list. -/
def noMarkerB : List Char → Bool
  | [] => true
  | c :: rest => (markerAt (c :: rest)).isNone && noMarkerB rest

/-- Validator variant following the amended reading of the spec: each
length rule checks the raw (untrimmed) length, which subsumes the
non-emptiness check; everything else (independent evaluation, the
messages, the ", " join) is unchanged.  Compared against the source
`validateScenario` for the refinement theorem of claim C2. -/
def validationErrorsAmended (scenario : Scenario) (format : String) : List String :=
  (if scenario.presentation.length < 20 then
    ["Missing or too short patient presentation"] else []) ++
  (if scenario.question.length < 10 then
    ["Missing or too short question section"] else []) ++
  (if scenario.answer.length < 20 then
    ["Missing or too short answer section"] else []) ++
  (if format = "sba" ∧ scenario.options.length ≠ 5 then
    ["SBA format requires exactly 5 options (found " ++
      toString scenario.options.length ++ ")"] else []) ++
  (if format = "osce" ∧ scenario.markingCriteria.length < 5 then
    ["OSCE format requires at least 5 marking criteria"] else [])

/-- The amended validator contract as a whole: `null` exactly when all
raw-length rules pass, otherwise the failed messages joined with ", ". -/
def validateScenarioAmended (scenario : Scenario) (format : String) : Option String :=
  let errors := validationErrorsAmended scenario format
  if errors = [] then none else some (joinComma errors)

/-- The validation pass (`scenarioController.js`, lines 124-127). -/
def validationResultsOf (text format : String) : List (Scenario × Option String) :=
  (parseScenarios text format).map (fun s => (s, validateScenario s format))

/-- The term `validScenarios` (`scenarioController.js`, line 130). -/
def acceptedOf (text format : String) : List Scenario :=
  ((validationResultsOf text format).filter (fun r => r.2.isNone)).map (fun r => r.1)

/-- The term `invalidScenarios` (`scenarioController.js`, line 131): the JS
filter keeps truthy `errors`, i.e. non-null non-empty strings. -/
def rejectedOf (text format : String) : List (Scenario × String) :=
  ((validationResultsOf text format).filter (fun r => r.2.getD "" ≠ ""))
    |>.map (fun r => (r.1, r.2.getD ""))

/-- The term `generateScenarios` (`scenarioController.js`, lines 33-166), with
the external model call abstracted by the `modelText` oracle: the
response the model returned for the built prompt. -/
def generateScenarios (req : GenRequest) (modelText : String) : GenResult :=
  if req.topic = "" ∨ req.count = 0 ∨ req.difficulty = "" then
    .badRequest "Missing required fields"
  else
    match buildPrompt req.topic req.count req.difficulty req.format req.language with
    | .error msg => .serverFault "Failed to generate scenarios" msg
    | .ok _prompt =>
      let valid := acceptedOf modelText req.format
      let invalid := rejectedOf modelText req.format
      if valid.length = 0 ∧ req.count > 0 then
        .allInvalid "No valid scenarios could be generated or parsed from the AI response."
          (if invalid.length > 0 then .allFailed invalid else .noContent)
      else
        .success valid
          ⟨req.topic, req.count, valid.length, req.difficulty, req.format, req.language⟩

/-- Test vector for claim C1: the canonical SBA question shape the
prompt demands, with the five lettered options on consecutive lines. -/
def sbaFiveText : String :=
  "Scenario 1: A man with acute chest pain.\nQuestion: What is the most appropriate next step?\nA) Aspirin\nB) ECG\nC) Troponin\nD) Oxygen\nE) Morphine\nAnswer: The correct answer is B because ECG is fast."

/-- Test vector for claim C3: an OSCE answer with a Marking Criteria
heading followed by five bullet lines. -/
def osceFiveText : String :=
  "Scenario 1: A man is brought in after a fall from a ladder.\nQuestion: Outline your initial assessment.\nAnswer: Use a structured ABCDE approach with key teaching points.\nMarking Criteria:\n- Checks airway\n- Checks breathing\n- Checks circulation\n- Assesses GCS\n- Documents findings"

/-- Variant of `osceFiveText` with only four bullet lines. -/
def osceFourText : String :=
  "Scenario 1: A man is brought in after a fall from a ladder.\nQuestion: Outline your initial assessment.\nAnswer: Use a structured ABCDE approach with key teaching points.\nMarking Criteria:\n- Checks airway\n- Checks breathing\n- Checks circulation\n- Assesses GCS"

/-- Test vector with two well-formed long-format scenario blocks. -/
def twoBlockText : String :=
  "Scenario 1: A woman with sudden severe headache.\nQuestion: What is the next investigation?\nAnswer: Urgent non contrast CT head to exclude bleeding.\nScenario 2: A man with crushing chest pain.\nQuestion: What is the first test?\nAnswer: A twelve lead ECG performed immediately."

/-- Test vector with no `Scenario <digits>` marker and no `Question:`
marker at all. -/
def unstructuredText : String :=
  "Nothing structured at all here, just prose about the weather."

/-- A scenario whose presentation is twenty space characters: raw
length 20, trimmed length 0. -/
def spacePresScenario : Scenario :=
  { id := "1"
    presentation := "                    "
    question := "What should be done?"
    answer := "A sufficiently long answer for validation."
    options := []
    markingCriteria := [] }

/-- C1: for the canonical SBA question body (five lettered option
lines A-E on consecutive lines, presentation and answer long enough),
the source's stateful `g`-flag option regex classifies only the
alternating lines A, C, E as options (the `lastIndex` left by each
successful `.test` makes the following line fail), so `options` is
the 3-entry sequence Aspirin/Troponin/Morphine, the B and D lines are
folded into the stem, and the candidate is rejected with
`exactly 5 options (found 3)` — not accepted with 5 options as the
claim states. -/
theorem c1_sba_option_lines_bug :
    parseScenarios sbaFiveText "sba" =
      [{ id := "1", presentation := "A man with acute chest pain.",
         question := "What is the most appropriate next step?\nB) ECG\nD) Oxygen",
         answer := "The correct answer is B because ECG is fast.",
         options := ["Aspirin", "Troponin", "Morphine"], markingCriteria := [] }] ∧
    (parseScenarios sbaFiveText "sba").map (fun s => validateScenario s "sba") =
      [some "SBA format requires exactly 5 options (found 3)"] := by
  exact ⟨by decide, by decide⟩

/-- C2 counterexample: a scenario whose presentation is twenty spaces
has trimmed length 0 (< 20), so the claim's "at least 20 characters
after trimming" rule demands a violation, yet `validateScenario`
checks the raw length and returns `null`. -/
theorem c2_counterexample :
    validateScenario spacePresScenario "long" = none ∧
    trimS spacePresScenario.presentation = "" ∧
    spacePresScenario.presentation.length = 20 := by
  exact ⟨by decide, by decide, by decide⟩

/-- C2 amended: `validateScenario` returns `null` exactly when all
applicable rules pass and otherwise the independent violation
messages joined with ", ", where the three base length rules check
the RAW (untrimmed) length — formal refinement against the
amended-spec validator. -/
theorem c2_validator_characterisation (s : Scenario) (format : String) :
    validateScenario s format = validateScenarioAmended s format := by
  unfold validateScenario validateScenarioAmended validationErrors validationErrorsAmended
  have h1 : (s.presentation = "" ∨ s.presentation.length < 20) ↔ s.presentation.length < 20 :=
    ⟨fun h => h.elim (fun he => by rw [he]; decide) id, Or.inr⟩
  have h2 : (s.question = "" ∨ s.question.length < 10) ↔ s.question.length < 10 :=
    ⟨fun h => h.elim (fun he => by rw [he]; decide) id, Or.inr⟩
  have h3 : (s.answer = "" ∨ s.answer.length < 20) ↔ s.answer.length < 20 :=
    ⟨fun h => h.elim (fun he => by rw [he]; decide) id, Or.inr⟩
  rw [if_congr h1 rfl rfl, if_congr h2 rfl rfl, if_congr h3 rfl rfl]

/-- C3: for the OSCE answer body with a `Marking Criteria:` heading
followed by five bullet lines, `markingCriteria` is exactly the five
entries with their bullet markers stripped, the whole matched span is
removed from the final answer (none of the entries occurs in it), the
candidate passes validation, and the four-bullet variant is rejected
with the at-least-5 message. -/
theorem c3_osce_criteria :
    parseScenarios osceFiveText "osce" =
      [{ id := "1",
         presentation := "A man is brought in after a fall from a ladder.",
         question := "Outline your initial assessment.",
         answer := "Use a structured ABCDE approach with key teaching points.",
         options := [],
         markingCriteria := ["Checks airway", "Checks breathing", "Checks circulation",
           "Assesses GCS", "Documents findings"] }] ∧
    (parseScenarios osceFiveText "osce").map (fun s => validateScenario s "osce") = [none] ∧
    ((["Checks airway", "Checks breathing", "Checks circulation",
        "Assesses GCS", "Documents findings"].all fun c =>
      (findSub c.data "Use a structured ABCDE approach with key teaching points.".data).isNone)
        = true) ∧
    (parseScenarios osceFourText "osce").map
        (fun s => (s.markingCriteria.length, validateScenario s "osce")) =
      [(4, some "OSCE format requires at least 5 marking criteria")] := by
  exact ⟨by decide, by decide, by decide, by decide⟩

/-- A list with no block-boundary marker splits into a single piece
with no captures, for any fuel. -/
theorem scan_noMarker : ∀ (fuel : Nat) (l : List Char), noMarkerB l = true →
    splitScenarioScan fuel l = (l, [])
  | 0, _, _ => rfl
  | _ + 1, [], _ => rfl
  | fuel + 1, c :: rest, h => by
    have h1 : (markerAt (c :: rest)).isNone = true ∧ noMarkerB rest = true := by
      simpa [noMarkerB] using h
    have hm : markerAt (c :: rest) = none := Option.isNone_iff_eq_none.mp h1.1
    simp [splitScenarioScan, hm, scan_noMarker fuel rest h1.2]

/-- With no marker and no case-sensitive `Question:` in the trimmed
text, `parseScenarios` returns the empty candidate list whatever the
format. -/
theorem parse_empty_of_unstructured (text : String) (format : String)
    (hm : noMarkerB (trimL text.data) = true)
    (hq : findSub "Question:".data (trimL text.data) = none) :
    parseScenarios text format = [] := by
  unfold parseScenarios cleanedTextOf
  by_cases hs : leadsL "Scenario".data (trimL text.data) = true
  · simp only [hs, if_true, if_pos]
    unfold scenarioBlocksOf
    rw [scan_noMarker _ _ hm]
    rfl
  · simp only [hs, Bool.false_eq_true, if_false, hq]

/-- C4: raw text with zero `Scenario <digits>` matches and zero
`Question:` occurrences yields an empty candidate sequence, and the
pipeline then fails the request through the same all-invalid branch
(the `No valid scenarios` 500 response, here with the no-content
detail since there are no rejected candidates either). -/
theorem c4_extraction_empty (text : String) (format : String)
    (hm : noMarkerB (trimL text.data) = true)
    (hq : findSub "Question:".data (trimL text.data) = none) :
    parseScenarios text format = [] ∧
    ∀ req : GenRequest, req.topic ≠ "" → req.count ≠ 0 → req.difficulty ≠ "" →
      (formatMap req.format).isSome = true →
      generateScenarios req text =
        .allInvalid "No valid scenarios could be generated or parsed from the AI response."
          .noContent := by
  have hparse : ∀ fmt, parseScenarios text fmt = [] := fun fmt =>
    parse_empty_of_unstructured text fmt hm hq
  refine ⟨hparse format, ?_⟩
  intro req ht hc hd hf
  obtain ⟨fm, hfm⟩ := Option.isSome_iff_exists.mp hf
  have hcount : 0 < req.count := Nat.pos_of_ne_zero hc
  unfold generateScenarios
  rw [if_neg (by push_neg; exact ⟨ht, hc, hd⟩)]
  unfold buildPrompt
  rw [hfm]
  simp only [acceptedOf, rejectedOf, validationResultsOf, hparse, List.map_nil,
    List.filter_nil, List.length_nil]
  rw [if_pos ⟨trivial, hcount⟩]
  rfl

/-- C4 witness: a concrete unstructured text and request. -/
theorem c4_extraction_empty_witness :
    parseScenarios unstructuredText "long" = [] ∧
    generateScenarios ⟨"weather", 1, "basic", "long", ""⟩ unstructuredText =
      .allInvalid "No valid scenarios could be generated or parsed from the AI response."
        .noContent := by
  have h := c4_extraction_empty unstructuredText "long" (by decide) (by decide)
  exact ⟨h.1, h.2 ⟨"weather", 1, "basic", "long", ""⟩ (by decide) (by decide)
    (by decide) (by decide)⟩

/-- Indexed map preserves length. -/
theorem mapIdxGo_length (f : Nat → List Char → Scenario) :
    ∀ (i : Nat) (bs : List (List Char)), (mapIdxGo f i bs).length = bs.length
  | _, [] => rfl
  | i, _ :: bs => by simp [mapIdxGo, mapIdxGo_length f (i + 1) bs]

/-- Element of an indexed map. -/
theorem mapIdxGo_get (f : Nat → List Char → Scenario) :
    ∀ (bs : List (List Char)) (i k : Nat),
      (mapIdxGo f i bs).get? k = (bs.get? k).map (fun b => f (i + k) b)
  | [], _, k => by cases k <;> simp [mapIdxGo]
  | b :: bs, i, 0 => by simp [mapIdxGo]
  | b :: bs, i, k + 1 => by
    simp only [mapIdxGo, List.get?]
    rw [mapIdxGo_get f bs (i + 1) k]
    have h : i + 1 + k = i + (k + 1) := by omega
    rw [h]

/-- A scenario with its three text fields reset always fails
validation: the empty presentation fires the first rule. -/
theorem validate_reset_ne_none (st : Scenario) (format : String) :
    validateScenario (resetFields st) format ≠ none := by
  have hmem : "Missing or too short patient presentation" ∈
      validationErrors (resetFields st) format := by
    unfold validationErrors
    have hp : (resetFields st).presentation = "" := rfl
    rw [hp]
    simp
  intro hcontra
  unfold validateScenario at hcontra
  by_cases he : validationErrors (resetFields st) format = []
  · rw [he] at hmem
    exact absurd hmem (List.not_mem_nil _)
  · rw [if_neg he] at hcontra
    exact Option.noConfusion hcontra

/-- C5: the per-block `try`/`catch` boundary isolates faults: for any
fault oracle, extraction still returns exactly one candidate per
detected block; blocks without a fault are processed exactly as in
the fault-free run; a faulted block yields the partial state with
presentation, question and answer reset to empty strings, which is
guaranteed to fail validation. -/
theorem c5_per_block_fault_isolation (text format : String)
    (faults : Nat → Option Scenario) :
    (parseScenariosFaulty text format faults).length = (parseScenarios text format).length ∧
    (∀ i, faults i = none →
      (parseScenariosFaulty text format faults).get? i = (parseScenarios text format).get? i) ∧
    (∀ i st, faults i = some st → i < (parseScenarios text format).length →
      (parseScenariosFaulty text format faults).get? i = some (resetFields st) ∧
      (resetFields st).presentation = "" ∧ (resetFields st).question = "" ∧
      (resetFields st).answer = "" ∧
      validateScenario (resetFields st) format ≠ none) := by
  unfold parseScenariosFaulty parseScenarios
  cases hct : cleanedTextOf text with
  | none =>
    refine ⟨rfl, fun i _ => rfl, fun i st _ hlt => absurd hlt (by simp)⟩
  | some ct =>
    refine ⟨?_, ?_, ?_⟩
    · rw [mapIdxGo_length, List.length_map]
    · intro i hnone
      rw [mapIdxGo_get, List.get?_map]
      simp only [Nat.zero_add]
      cases hb : (scenarioBlocksOf ct).get? i with
      | none => rfl
      | some b => simp [processBlockCaught, hnone]
    · intro i st hsome hlt
      rw [List.length_map] at hlt
      have hb : (scenarioBlocksOf ct).get? i =
          some ((scenarioBlocksOf ct).get ⟨i, hlt⟩) := List.get?_eq_get hlt
      refine ⟨?_, rfl, rfl, rfl, validate_reset_ne_none st format⟩
      rw [mapIdxGo_get]
      simp only [Nat.zero_add, hb, Option.map_some]
      simp [processBlockCaught, hsome]

/-- C5 witness: the two-block text with a fault injected into block 0
only: block 1 is processed normally, block 0 is reset and fails
validation, and the batch still has one candidate per block. -/
theorem c5_per_block_fault_isolation_witness :
    (parseScenariosFaulty twoBlockText "long"
        (fun i => if i = 0 then some ⟨"9", "p", "q", "a", [], []⟩ else none)).length =
      (parseScenarios twoBlockText "long").length ∧
    (parseScenariosFaulty twoBlockText "long"
        (fun i => if i = 0 then some ⟨"9", "p", "q", "a", [], []⟩ else none)).get? 1 =
      (parseScenarios twoBlockText "long").get? 1 ∧
    (parseScenariosFaulty twoBlockText "long"
        (fun i => if i = 0 then some ⟨"9", "p", "q", "a", [], []⟩ else none)).get? 0 =
      some (resetFields ⟨"9", "p", "q", "a", [], []⟩) ∧
    validateScenario (resetFields ⟨"9", "p", "q", "a", [], []⟩) "long" ≠ none := by
  have h := c5_per_block_fault_isolation twoBlockText "long"
    (fun i => if i = 0 then some ⟨"9", "p", "q", "a", [], []⟩ else none)
  exact ⟨h.1, h.2.1 1 rfl,
    (h.2.2 0 ⟨"9", "p", "q", "a", [], []⟩ rfl (by decide)).1,
    (h.2.2 0 ⟨"9", "p", "q", "a", [], []⟩ rfl (by decide)).2.2.2.2⟩

/-- A string whose length is zero is the empty string. -/
theorem length_zero_eq_empty {a : String} (h : a.length = 0) : a = "" := by
  cases a with
  | mk data =>
    cases data with
    | nil => rfl
    | cons c cs => simp [String.length] at h

/-- Appending to a non-empty string stays non-empty. -/
theorem append_ne_empty_left (a b : String) (h : a ≠ "") : a ++ b ≠ "" := by
  intro hc
  have hl := congrArg String.length hc
  rw [String.length_append] at hl
  have h0 : String.length "" = 0 := rfl
  rw [h0] at hl
  exact h (length_zero_eq_empty (by omega))

/-- Every message produced by the validator is non-empty. -/
theorem mem_validationErrors_ne_empty {e : String} {s : Scenario} {format : String}
    (h : e ∈ validationErrors s format) : e ≠ "" := by
  unfold validationErrors at h
  simp only [List.mem_append] at h
  rcases h with ((((h | h) | h) | h) | h) <;>
    [skip; skip; skip;
      (split at h
       · simp only [List.mem_singleton] at h
         subst h
         exact append_ne_empty_left _ _ (append_ne_empty_left _ _ (by decide))
       · exact absurd h (List.not_mem_nil _));
      skip] <;>
    (split at h
     · simp only [List.mem_singleton] at h
       subst h
       decide
     · exact absurd h (List.not_mem_nil _))

/-- Joining a non-empty list of non-empty strings with ", " is
non-empty. -/
theorem joinComma_ne_empty : ∀ (es : List String), es ≠ [] → (∀ e ∈ es, e ≠ "") →
    joinComma es ≠ ""
  | [], h, _ => absurd rfl h
  | [e], _, hall => by simpa [joinComma] using hall e (by simp)
  | e :: f :: rest, _, hall => by
    show e ++ ", " ++ joinComma (f :: rest) ≠ ""
    exact append_ne_empty_left _ _ (append_ne_empty_left _ _ (hall e (by simp)))

/-- The validator never returns the empty string as a message (JS
truthiness of the `errors` value cannot drop a real failure). -/
theorem validate_ne_some_empty (s : Scenario) (format : String) :
    validateScenario s format ≠ some "" := by
  unfold validateScenario
  by_cases he : validationErrors s format = []
  · simp [he]
  · rw [if_neg he]
    intro hc
    exact joinComma_ne_empty _ he (fun e hme => mem_validationErrors_ne_empty hme)
      (Option.some.inj hc)

/-- Accepted members of the pipeline pass validation. -/
theorem mem_acceptedOf {s : Scenario} {text format : String}
    (h : s ∈ acceptedOf text format) : validateScenario s format = none := by
  unfold acceptedOf validationResultsOf at h
  obtain ⟨r, hr, hrs⟩ := List.mem_map.mp h
  have hfil := List.mem_filter.mp hr
  obtain ⟨s0, _, hr0⟩ := List.mem_map.mp hfil.1
  have h2 := hfil.2
  subst hr0
  simp only at hrs
  subst hrs
  simpa [Option.isNone_iff_eq_none] using h2

/-- Complementary Boolean filters partition the length of a list. -/
theorem filter_length_partition {α : Type} (p : α → Bool) :
    ∀ l : List α, (l.filter p).length + (l.filter (fun a => !p a)).length = l.length
  | [] => rfl
  | a :: l => by
    have ih := filter_length_partition p l
    by_cases h : p a = true
    · simp only [List.filter_cons, h, Bool.not_true, if_true, ite_true, ite_false,
        Bool.false_eq_true, List.length_cons]
      omega
    · have h' : p a = false := by simpa using h
      simp only [List.filter_cons, h', Bool.not_false, ite_true, ite_false,
        Bool.false_eq_true, List.length_cons]
      omega

/-- The accepted and rejected candidate counts partition the detected
candidate count. -/
theorem accepted_add_rejected (text format : String) :
    (acceptedOf text format).length + (rejectedOf text format).length =
      (parseScenarios text format).length := by
  unfold acceptedOf rejectedOf
  rw [List.length_map, List.length_map]
  have hcong : (validationResultsOf text format).filter
        (fun r => r.2.getD "" ≠ "") =
      (validationResultsOf text format).filter (fun r => !r.2.isNone) := by
    apply List.filter_congr
    intro r hr
    obtain ⟨s0, _, hr0⟩ := List.mem_map.mp hr
    subst hr0
    cases hv : validateScenario s0 format with
    | none => simp [validationResultsOf, hv]
    | some msg =>
      have hne : msg ≠ "" := by
        intro hmsg
        exact validate_ne_some_empty s0 format (hmsg ▸ hv)
      simp [validationResultsOf, hv, hne]
  rw [hcong]
  have hvlen : (validationResultsOf text format).length =
      (parseScenarios text format).length := by
    unfold validationResultsOf
    rw [List.length_map]
  rw [← hvlen]
  exact filter_length_partition (fun r => r.2.isNone) (validationResultsOf text format)

/-- With required fields present and a known format, the pipeline
response is the all-invalid/success branch over the accepted and
rejected candidate sets. -/
theorem generateScenarios_eq (req : GenRequest) (text : String)
    (ht : req.topic ≠ "") (hc : req.count ≠ 0) (hd : req.difficulty ≠ "")
    {fm : FormatSpec} (hfm : formatMap req.format = some fm) :
    generateScenarios req text =
      if (acceptedOf text req.format).length = 0 ∧ req.count > 0 then
        GenResult.allInvalid
          "No valid scenarios could be generated or parsed from the AI response."
          (if (rejectedOf text req.format).length > 0
            then .allFailed (rejectedOf text req.format) else .noContent)
      else
        .success (acceptedOf text req.format)
          ⟨req.topic, req.count, (acceptedOf text req.format).length, req.difficulty,
            req.format, req.language⟩ := by
  unfold generateScenarios
  rw [if_neg (by push_neg; exact ⟨ht, hc, hd⟩)]
  unfold buildPrompt
  rw [hfm]

/-- C6: with required fields present, a known format and a requested
count of at least 1: an empty accepted set yields the all-invalid 500
with the per-candidate violation reasons in its details and no
scenario data, and any success response returns exactly the accepted
candidates, all of which pass validation. -/
theorem c6_no_mixed_response (req : GenRequest) (text : String)
    (ht : req.topic ≠ "") (hc : req.count ≠ 0) (hd : req.difficulty ≠ "")
    (hf : (formatMap req.format).isSome = true) :
    (acceptedOf text req.format = [] →
      generateScenarios req text =
        .allInvalid "No valid scenarios could be generated or parsed from the AI response."
          (if (rejectedOf text req.format).length > 0
            then .allFailed (rejectedOf text req.format) else .noContent)) ∧
    (∀ l m, generateScenarios req text = .success l m →
      l = acceptedOf text req.format ∧
      l.all (fun s => (validateScenario s req.format).isNone) = true) := by
  obtain ⟨fm, hfm⟩ := Option.isSome_iff_exists.mp hf
  have hgen := generateScenarios_eq req text ht hc hd hfm
  constructor
  · intro hacc
    rw [hgen, if_pos ⟨by rw [hacc]; rfl, Nat.pos_of_ne_zero hc⟩]
  · intro l m heq
    rw [hgen] at heq
    by_cases hcond : (acceptedOf text req.format).length = 0 ∧ req.count > 0
    · rw [if_pos hcond] at heq
      exact absurd heq (by simp)
    · rw [if_neg hcond] at heq
      injection heq with h1 h2
      refine ⟨h1.symm, ?_⟩
      rw [h1.symm, List.all_eq_true]
      intro s hs
      rw [Option.isNone_iff_eq_none]
      exact mem_acceptedOf hs

/-- C6 witness: a request over unstructured text hits the all-invalid
branch with no scenario data. -/
theorem c6_no_mixed_response_witness :
    generateScenarios ⟨"rain", 2, "advanced", "short", "French"⟩ unstructuredText =
      .allInvalid "No valid scenarios could be generated or parsed from the AI response."
        (if (rejectedOf unstructuredText "short").length > 0
          then .allFailed (rejectedOf unstructuredText "short") else .noContent) :=
  (c6_no_mixed_response ⟨"rain", 2, "advanced", "short", "French"⟩ unstructuredText
    (by decide) (by decide) (by decide) (by decide)).1 (by decide)

/-- C7: on a successful run (at least one accepted candidate) the
metadata reports `generated_count` = detected − rejected (the
accepted count) and `requested_count` = the original requested
count. -/
theorem c7_counts (req : GenRequest) (text : String)
    (ht : req.topic ≠ "") (hc : req.count ≠ 0) (hd : req.difficulty ≠ "")
    (hf : (formatMap req.format).isSome = true)
    (hne : 1 ≤ (acceptedOf text req.format).length) :
    generateScenarios req text =
      .success (acceptedOf text req.format)
        ⟨req.topic, req.count,
          (parseScenarios text req.format).length - (rejectedOf text req.format).length,
          req.difficulty, req.format, req.language⟩ ∧
    (acceptedOf text req.format).length =
      (parseScenarios text req.format).length - (rejectedOf text req.format).length := by
  have hpart := accepted_add_rejected text req.format
  have hlen : (acceptedOf text req.format).length =
      (parseScenarios text req.format).length - (rejectedOf text req.format).length := by
    omega
  obtain ⟨fm, hfm⟩ := Option.isSome_iff_exists.mp hf
  refine ⟨?_, hlen⟩
  rw [generateScenarios_eq req text ht hc hd hfm]
  rw [if_neg (by rintro ⟨h0, -⟩; omega)]
  rw [hlen]

/-- C7 witness: two detected blocks, none rejected, requested count 1:
metadata reports requested 1 and generated 2 − 0. -/
theorem c7_counts_witness :
    generateScenarios ⟨"headache", 1, "basic", "long", ""⟩ twoBlockText =
      .success (acceptedOf twoBlockText "long")
        ⟨"headache", 1,
          (parseScenarios twoBlockText "long").length -
            (rejectedOf twoBlockText "long").length,
          "basic", "long", ""⟩ :=
  (c7_counts ⟨"headache", 1, "basic", "long", ""⟩ twoBlockText (by decide) (by decide)
    (by decide) (by decide) (by decide)).1

/-- C8 counterexample: the model was asked for 1 scenario but the raw
text contains 2 blocks; both are detected and accepted, so the number
of detected blocks (2) exceeds the requested count (1), violating the
claimed `detected ≤ requested` leg of the invariant. -/
theorem c8_counterexample :
    (parseScenarios twoBlockText "long").length = 2 ∧
    generateScenarios ⟨"headache", 1, "basic", "long", ""⟩ twoBlockText =
      .success (acceptedOf twoBlockText "long") ⟨"headache", 1, 2, "basic", "long", ""⟩ ∧
    (acceptedOf twoBlockText "long").length = 2 ∧ ¬(2 ≤ 1) := by
  exact ⟨by decide, by decide, by decide, by decide⟩

/-- C8 amended: the accepted count never exceeds the detected block
count, and no accepted scenario has an empty presentation, question
or answer; the `detected ≤ requested` leg is dropped, since nothing
caps how many blocks the untrusted model text may contain. -/
theorem c8_invariant_amended (text format : String) :
    (acceptedOf text format).length ≤ (parseScenarios text format).length ∧
    ∀ s, s ∈ acceptedOf text format →
      s.presentation ≠ "" ∧ s.question ≠ "" ∧ s.answer ≠ "" := by
  constructor
  · have h := accepted_add_rejected text format
    omega
  · intro s hs
    have hv := mem_acceptedOf hs
    have herr : validationErrors s format = [] := by
      by_contra hne
      unfold validateScenario at hv
      rw [if_neg hne] at hv
      exact Option.noConfusion hv
    refine ⟨?_, ?_, ?_⟩
    · intro hp
      have hmem : "Missing or too short patient presentation" ∈
          validationErrors s format := by
        unfold validationErrors
        rw [hp]
        simp
      rw [herr] at hmem
      exact absurd hmem (List.not_mem_nil _)
    · intro hq
      have hmem : "Missing or too short question section" ∈
          validationErrors s format := by
        unfold validationErrors
        rw [hq]
        simp
      rw [herr] at hmem
      exact absurd hmem (List.not_mem_nil _)
    · intro ha
      have hmem : "Missing or too short answer section" ∈
          validationErrors s format := by
        unfold validationErrors
        rw [ha]
        simp
      rw [herr] at hmem
      exact absurd hmem (List.not_mem_nil _)

/-- C8 amended witness: the two-block text, with the first accepted
scenario exhibited. -/
theorem c8_invariant_amended_witness :
    (acceptedOf twoBlockText "long").length ≤ (parseScenarios twoBlockText "long").length ∧
    ({ id := "1", presentation := "A woman with sudden severe headache.",
       question := "What is the next investigation?",
       answer := "Urgent non contrast CT head to exclude bleeding.",
       options := [], markingCriteria := [] } : Scenario).presentation ≠ "" := by
  have h := c8_invariant_amended twoBlockText "long"
  exact ⟨h.1, (h.2 _ (by decide)).1⟩

/-- C9 counterexample: `expert` is outside the enumerated difficulty
set, yet prompt construction does NOT fault: `difficultyMap[expert]`
is `undefined` and the template merely interpolates the string
`undefined`, so `buildPrompt` succeeds, contradicting the claim that
any out-of-set difficulty or format produces a runtime fault. -/
theorem c9_counterexample :
    ("expert" ≠ "basic" ∧ "expert" ≠ "intermediate" ∧ "expert" ≠ "advanced") ∧
    (buildPrompt "chest pain" 3 "expert" "long" "").isOk = true := by
  exact ⟨by decide, by decide⟩

/-- C9 amended: only an out-of-set FORMAT faults (reading
`.description` of `undefined` throws, surfaced by the top-level
handler as the generic 500); an out-of-set difficulty alone is
interpolated as the string `undefined` and the builder still totally
produces its instruction string, as it does whenever the format is in
the enumerated set. -/
theorem c9_prompt_fault_amended (topic : String) (count : Nat)
    (difficulty format language : String) :
    ((format = "long" ∨ format = "short" ∨ format = "sba" ∨ format = "osce") →
      (buildPrompt topic count difficulty format language).isOk = true) ∧
    (format ≠ "long" → format ≠ "short" → format ≠ "sba" → format ≠ "osce" →
      buildPrompt topic count difficulty format language =
        .error "Cannot read properties of undefined (reading description)" ∧
      ∀ (req : GenRequest) (text : String),
        req.topic ≠ "" → req.count ≠ 0 → req.difficulty ≠ "" → req.format = format →
        generateScenarios req text =
          .serverFault "Failed to generate scenarios"
            "Cannot read properties of undefined (reading description)") := by
  constructor
  · intro hf
    rcases hf with h | h | h | h <;> subst h <;> rfl
  · intro h1 h2 h3 h4
    have hfm : formatMap format = none := by
      unfold formatMap
      rw [if_neg h1, if_neg h2, if_neg h3, if_neg h4]
    have hbp : buildPrompt topic count difficulty format language =
        .error "Cannot read properties of undefined (reading description)" := by
      unfold buildPrompt
      rw [hfm]
    refine ⟨hbp, ?_⟩
    intro req text ht hc hd hreq
    unfold generateScenarios
    rw [if_neg (by push_neg; exact ⟨ht, hc, hd⟩)]
    have hfm2 : formatMap req.format = none := by
      rw [hreq]
      exact hfm
    unfold buildPrompt
    rw [hfm2]

/-- C9 amended witness: a known format with an unknown difficulty
builds fine; an unknown format yields the generic 500. -/
theorem c9_prompt_fault_amended_witness :
    (buildPrompt "cardio" 2 "expertish" "osce" "").isOk = true ∧
    generateScenarios ⟨"cardio", 2, "basic", "weird", ""⟩ "whatever" =
      .serverFault "Failed to generate scenarios"
        "Cannot read properties of undefined (reading description)" := by
  refine ⟨(c9_prompt_fault_amended "cardio" 2 "expertish" "osce" "").1 (by decide), ?_⟩
  exact (((c9_prompt_fault_amended "t" 1 "b" "weird" "").2 (by decide) (by decide)
    (by decide) (by decide)).2 ⟨"cardio", 2, "basic", "weird", ""⟩ "whatever"
    (by decide) (by decide) (by decide) rfl)

/-- Case-insensitive comparison is reflexive. -/
theorem ciEq_refl (c : Char) : ciEq c c = true := by
  simp [ciEq]

/-- A non-whitespace character is never case-insensitively equal to a
whitespace character. -/
theorem ciEq_ws_false {p c : Char} (hp : wsChar p = false) (hc : wsChar c = true) :
    ciEq p c = false := by
  simp only [ciEq, wsChar, isUpperChar] at *
  simp only [Bool.or_eq_false_iff, Bool.or_eq_true_iff, Bool.and_eq_false_iff,
    Bool.and_eq_true_iff, decide_eq_false_iff_not, decide_eq_true_eq] at *
  omega

/-- A head mismatch refutes a case-insensitive prefix. -/
theorem ciLeads_false_head {p₀ c : Char} (ps l : List Char) (h : ciEq p₀ c = false) :
    ciLeads (p₀ :: ps) (c :: l) = false := by
  simp [ciLeads, h]

/-- A case-insensitive prefix never exceeds the text length. -/
theorem ciLeads_length : ∀ {pat l : List Char}, ciLeads pat l = true → pat.length ≤ l.length
  | [], _, _ => by simp
  | _ :: _, [], h => by simp [ciLeads] at h
  | p :: ps, c :: cs, h => by
    simp only [ciLeads, Bool.and_eq_true] at h
    simpa [List.length_cons, Nat.succ_le_succ_iff] using ciLeads_length h.2

/-- A case-insensitive prefix survives appending on the right. -/
theorem ciLeads_append_right : ∀ {pat x : List Char} (t : List Char),
    ciLeads pat x = true → ciLeads pat (x ++ t) = true
  | [], _, _, _ => by simp [ciLeads]
  | _ :: _, [], _, h => by simp [ciLeads] at h
  | p :: ps, c :: cs, t, h => by
    simp only [ciLeads, Bool.and_eq_true] at h
    simp only [List.cons_append, ciLeads, Bool.and_eq_true]
    exact ⟨h.1, ciLeads_append_right t h.2⟩

/-- Every list is a case-insensitive prefix of itself followed by
anything. -/
theorem ciLeads_refl_append : ∀ (p t : List Char), ciLeads p (p ++ t) = true
  | [], _ => by simp [ciLeads]
  | c :: cs, t => by
    simp only [List.cons_append, ciLeads, Bool.and_eq_true]
    exact ⟨ciEq_refl c, ciLeads_refl_append cs t⟩

/-- The term `dropWhile` over an append whose left part does not vanish. -/
theorem dropWhile_append_of_ne_nil {p : Char → Bool} :
    ∀ (a b : List Char), a.dropWhile p ≠ [] → (a ++ b).dropWhile p = a.dropWhile p ++ b
  | [], _, h => absurd rfl h
  | c :: a, b, h => by
    by_cases hc : p c = true
    · rw [List.dropWhile_cons_of_pos hc] at h
      simp only [List.cons_append, List.dropWhile_cons_of_pos hc]
      exact dropWhile_append_of_ne_nil a b h
    · simp only [List.cons_append, List.dropWhile_cons_of_neg hc]

/-- The term `dropWhile` skips a fully satisfying left part. -/
theorem dropWhile_append_of_all {p : Char → Bool} :
    ∀ (a b : List Char), (∀ c ∈ a, p c = true) → (a ++ b).dropWhile p = b.dropWhile p
  | [], _, _ => rfl
  | c :: a, b, h => by
    simp only [List.cons_append, List.dropWhile_cons_of_pos (h c (by simp))]
    exact dropWhile_append_of_all a b (fun d hd => h d (by simp [hd]))

/-- Right trim over an append whose right part does not vanish. -/
theorem rtrim_append_of_ne_nil (x y : List Char) (h : rtrimL y ≠ []) :
    rtrimL (x ++ y) = x ++ rtrimL y := by
  unfold rtrimL ltrimL at *
  rw [List.reverse_append]
  rw [dropWhile_append_of_ne_nil _ _ (by
    intro hc
    exact h (by rw [hc]; rfl))]
  rw [List.reverse_append, List.reverse_reverse]

/-- Right trim over a cons whose tail does not vanish. -/
theorem rtrim_cons_of_ne_nil (c : Char) (l : List Char) (h : rtrimL l ≠ []) :
    rtrimL (c :: l) = c :: rtrimL l := by
  have := rtrim_append_of_ne_nil [c] l h
  simpa using this

/-- Right trim absorbs appended whitespace. -/
theorem rtrim_append_ws (x w : List Char) (hw : ∀ c ∈ w, wsChar c = true) :
    rtrimL (x ++ w) = rtrimL x := by
  unfold rtrimL ltrimL
  rw [List.reverse_append]
  rw [dropWhile_append_of_all _ _ (fun c hc => hw c (List.mem_reverse.mp hc))]

/-- Every list is its right trim followed by whitespace. -/
theorem rtrim_decomp (l : List Char) :
    ∃ w, (∀ c ∈ w, wsChar c = true) ∧ l = rtrimL l ++ w := by
  refine ⟨(l.reverse.takeWhile wsChar).reverse, ?_, ?_⟩
  · intro c hc
    exact List.mem_takeWhile_imp (List.mem_reverse.mp hc)
  · conv_lhs => rw [← List.reverse_reverse l, ← List.takeWhile_append_dropWhile
      (p := wsChar) (l := l.reverse)]
    rw [List.reverse_append]
    rfl

/-- A vanishing right trim means the whole list is whitespace. -/
theorem rtrim_nil_allws {l : List Char} (h : rtrimL l = []) : ∀ c ∈ l, wsChar c = true := by
  intro c hc
  obtain ⟨w, hw, hl⟩ := rtrim_decomp l
  rw [h, List.nil_append] at hl
  exact hw c (hl ▸ hc)

/-- Left trim absorbs a whitespace head. -/
theorem trim_cons_ws {c : Char} (l : List Char) (h : wsChar c = true) :
    trimL (c :: l) = trimL l := by
  unfold trimL ltrimL
  rw [List.dropWhile_cons_of_pos h]

/-- Trim absorbs appended whitespace. -/
theorem trim_append_ws (x w : List Char) (hw : ∀ c ∈ w, wsChar c = true) :
    trimL (x ++ w) = trimL x := by
  unfold trimL
  by_cases hx : ltrimL x = []
  · have hallx : ∀ c ∈ x, wsChar c = true := by
      intro c hc
      exact List.dropWhile_eq_nil_iff.mp hx c hc
    have h1 : ltrimL (x ++ w) = [] := by
      unfold ltrimL
      rw [dropWhile_append_of_all _ _ hallx]
      exact List.dropWhile_eq_nil_iff.mpr hw
    rw [h1, hx]
  · unfold ltrimL at *
    rw [dropWhile_append_of_ne_nil _ _ hx]
    exact rtrim_append_ws _ _ hw

/-- Trimming after a right trim is plain trimming. -/
theorem trim_rtrim (l : List Char) : trimL (rtrimL l) = trimL l := by
  obtain ⟨w, hw, hl⟩ := rtrim_decomp l
  conv_rhs => rw [hl]
  rw [trim_append_ws _ _ hw]

/-- One step of `findCI` when the pattern does not match here. -/
theorem findCI_cons_false (pat : List Char) (c : Char) (l : List Char)
    (h : ciLeads pat (c :: l) = false) :
    findCI pat (c :: l) = (findCI pat l).map (· + 1) := by
  simp only [findCI, h, Bool.false_eq_true, if_false]

/-- A non-empty non-whitespace pattern never matches inside pure
whitespace. -/
theorem findCI_allws_none {p₀ : Char} (ps : List Char)
    (hnw : wsChar p₀ = false) :
    ∀ (w : List Char), (∀ c ∈ w, wsChar c = true) → findCI (p₀ :: ps) w = none
  | [], _ => by simp [findCI, ciLeads]
  | c :: w, hw => by
    rw [findCI_cons_false _ _ _
      (ciLeads_false_head _ _ (ciEq_ws_false hnw (hw c (by simp))))]
    rw [findCI_allws_none ps hnw w (fun d hd => hw d (by simp [hd]))]
    rfl

/-- A case-insensitive prefix test ignores appended whitespace when
the pattern has none. -/
theorem ciLeads_append_ws : ∀ (pat x w : List Char),
    (∀ c ∈ pat, wsChar c = false) → (∀ c ∈ w, wsChar c = true) →
    ciLeads pat (x ++ w) = ciLeads pat x
  | [], _, _, _, _ => by simp [ciLeads]
  | p :: ps, [], w, hp, hw => by
    cases w with
    | nil => rfl
    | cons c w' =>
      simp only [List.nil_append]
      rw [ciLeads_false_head _ _ (ciEq_ws_false (hp p (by simp)) (hw c (by simp)))]
      rfl
  | p :: ps, a :: x', w, hp, hw => by
    simp only [List.cons_append, ciLeads, List.append_eq]
    rw [ciLeads_append_ws ps x' w (fun d hd => hp d (by simp [hd])) hw]

/-- The term `findCI` ignores appended whitespace when the pattern has none. -/
theorem findCI_append_ws {p₀ : Char} (ps : List Char) (hnw₀ : wsChar p₀ = false)
    (hnw : ∀ c ∈ ps, wsChar c = false) :
    ∀ (x w : List Char), (∀ c ∈ w, wsChar c = true) →
    findCI (p₀ :: ps) (x ++ w) = findCI (p₀ :: ps) x
  | [], w, hw => by
    rw [List.nil_append, findCI_allws_none ps hnw₀ w hw]
    simp [findCI, ciLeads]
  | a :: x', w, hw => by
    have hpat : ∀ c ∈ p₀ :: ps, wsChar c = false := by
      intro c hc
      rcases List.mem_cons.mp hc with h | h
      · exact h ▸ hnw₀
      · exact hnw c h
    have hcl : ciLeads (p₀ :: ps) (a :: (x' ++ w)) = ciLeads (p₀ :: ps) (a :: x') := by
      have := ciLeads_append_ws (p₀ :: ps) (a :: x') w hpat hw
      simpa using this
    by_cases h : ciLeads (p₀ :: ps) (a :: x') = true
    · simp only [List.cons_append, findCI, List.append_eq, hcl, h, if_true]
    · have h' : ciLeads (p₀ :: ps) (a :: x') = false := by simpa using h
      simp only [List.cons_append, findCI, List.append_eq, hcl, h', Bool.false_eq_true,
        if_false]
      rw [findCI_append_ws ps hnw₀ hnw x' w hw]

/-- The term `findCI` is unchanged by right trimming when the pattern has no
whitespace. -/
theorem findCI_rtrim {p₀ : Char} (ps : List Char) (hnw₀ : wsChar p₀ = false)
    (hnw : ∀ c ∈ ps, wsChar c = false) (l : List Char) :
    findCI (p₀ :: ps) (rtrimL l) = findCI (p₀ :: ps) l := by
  obtain ⟨w, hw, hl⟩ := rtrim_decomp l
  conv_rhs => rw [hl]
  rw [findCI_append_ws ps hnw₀ hnw _ w hw]

/-- A found occurrence fits inside the text. -/
theorem findCI_some_bound : ∀ {pat l : List Char} {k : Nat},
    findCI pat l = some k → pat.length + k ≤ l.length := by
  intro pat l
  induction l with
  | nil =>
    intro k h
    simp only [findCI] at h
    split at h
    · cases h
      have hle := ciLeads_length (by assumption)
      simpa using hle
    · cases h
  | cons c rest ih =>
    intro k h
    simp only [findCI] at h
    split at h
    · cases h
      have hle := ciLeads_length (by assumption)
      simpa using hle
    · cases hr : findCI pat rest with
      | none => rw [hr] at h; cases h
      | some k' =>
        rw [hr] at h
        simp at h
        have := ih hr
        simp only [List.length_cons]
        omega

/-- The term `take` over an append, within the left part. -/
theorem take_append_of_le : ∀ (n : Nat) (a b : List Char), n ≤ a.length →
    (a ++ b).take n = a.take n
  | 0, _, _, _ => by simp
  | n + 1, [], _, h => by
    simp only [List.length_nil] at h
    omega
  | n + 1, c :: a, b, h => by
    simp only [List.cons_append, List.take_succ_cons]
    rw [take_append_of_le n a b (by simpa using h)]

/-- The term `drop` over an append, within the left part. -/
theorem drop_append_of_le : ∀ (n : Nat) (a b : List Char), n ≤ a.length →
    (a ++ b).drop n = a.drop n ++ b
  | 0, _, _, _ => by simp
  | n + 1, [], _, h => by
    simp only [List.length_nil] at h
    omega
  | n + 1, c :: a, b, h => by
    simp only [List.cons_append, List.drop_succ_cons]
    exact drop_append_of_le n a b (by simpa using h)

/-- Dropping the whole left part of an append. -/
theorem drop_self_append : ∀ (a b : List Char), (a ++ b).drop a.length = b
  | [], _ => by simp
  | c :: a, b => by
    simp only [List.cons_append, List.length_cons, List.drop_succ_cons]
    exact drop_self_append a b

/-- Dropping past the left part of an append. -/
theorem drop_append_add : ∀ (a b : List Char) (n : Nat),
    (a ++ b).drop (a.length + n) = b.drop n
  | [], _, _ => by simp
  | c :: a, b, n => by
    simp only [List.cons_append, List.length_cons]
    have h : a.length + 1 + n = (a.length + n) + 1 := by omega
    rw [h, List.drop_succ_cons]
    exact drop_append_add a b n

/-- Composition of additive shifts on an optional index. -/
theorem option_map_add_add (o : Option Nat) (m n : Nat) :
    (o.map (· + m)).map (· + n) = o.map (· + (m + n)) := by
  cases o with
  | none => rfl
  | some k => simp [Option.map_some]; omega

/-- The term `takeWhile` over an all-satisfying part followed by a failing
element. -/
theorem takeWhile_all_append {p : Char → Bool} : ∀ (a : List Char) (x : Char) (t : List Char),
    (∀ c ∈ a, p c = true) → p x = false → (a ++ x :: t).takeWhile p = a
  | [], x, t, _, hx => by simp [List.takeWhile_cons, hx]
  | c :: a, x, t, h, hx => by
    simp only [List.cons_append, List.takeWhile_cons, h c (by simp), if_true]
    rw [takeWhile_all_append a x t (fun d hd => h d (by simp [hd])) hx]

/-- The boundary regex matches a reconstructed block at its head,
capturing exactly the id and leaving the text after the colon. -/
theorem markerAt_mkBlock (id z : List Char) (hid : id ≠ [])
    (hdig : ∀ d ∈ id, isDigitChar d = true) :
    markerAt (mkBlockL id z) = some (id, '\n' :: z) := by
  have hassoc : mkBlockL id z = "Scenario ".data ++ (id ++ ':' :: '\n' :: z) := by
    unfold mkBlockL
    rw [List.append_assoc]
  rw [hassoc]
  simp only [markerAt]
  rw [if_pos (ciLeads_refl_append _ _)]
  have h9 : ("Scenario ".data ++ (id ++ ':' :: '\n' :: z)).drop 9 = id ++ ':' :: '\n' :: z := by
    have h : (9 : Nat) = "Scenario ".data.length := rfl
    rw [h, drop_self_append]
  rw [h9]
  rw [takeWhile_all_append id ':' ('\n' :: z) hdig (by decide)]
  rw [if_neg hid, drop_self_append]
  rfl

/-- A marker match at the head survives appending on the right. -/
theorem markerAt_isSome_append {x : List Char} (t : List Char) {d r : List Char}
    (h : markerAt x = some (d, r)) : (markerAt (x ++ t)).isSome = true := by
  simp only [markerAt] at h ⊢
  by_cases hcl : ciLeads "Scenario ".data x = true
  · rw [if_pos hcl] at h
    rw [if_pos (ciLeads_append_right t hcl)]
    have h9 : 9 ≤ x.length := by simpa using ciLeads_length hcl
    rw [drop_append_of_le 9 x t h9]
    by_cases hdig : (x.drop 9).takeWhile isDigitChar = []
    · rw [if_pos hdig] at h
      cases h
    · cases hxd : x.drop 9 with
      | nil => rw [hxd] at hdig; simp at hdig
      | cons c rest =>
        rw [hxd] at hdig
        have hc : isDigitChar c = true := by
          by_contra hc'
          rw [List.takeWhile_cons, if_neg hc'] at hdig
          exact hdig rfl
        simp only [List.cons_append, List.takeWhile_cons, hc, if_true]
        rw [if_neg (by simp)]
        split <;> simp
  · rw [if_neg hcl] at h
    cases h

/-- No marker match on an append means none on the left part. -/
theorem markerAt_none_of_front {x t : List Char} (h : markerAt (x ++ t) = none) :
    markerAt x = none := by
  cases hm : markerAt x with
  | none => rfl
  | some dr =>
    obtain ⟨d, r⟩ := dr
    have hs := markerAt_isSome_append t hm
    rw [h] at hs
    cases hs

/-- No marker anywhere in an append means none in the left part. -/
theorem noMarkerB_append_left : ∀ {x : List Char} (y : List Char),
    noMarkerB (x ++ y) = true → noMarkerB x = true
  | [], _, _ => rfl
  | c :: x', y, h => by
    simp only [List.cons_append, noMarkerB, Bool.and_eq_true] at h ⊢
    refine ⟨?_, noMarkerB_append_left y h.2⟩
    rw [Option.isNone_iff_eq_none]
    have hnone : markerAt (c :: (x' ++ y)) = none := Option.isNone_iff_eq_none.mp h.1
    exact markerAt_none_of_front (x := c :: x') (by simpa using hnone)

/-- Right trimming cannot introduce a marker. -/
theorem noMarkerB_rtrim {l : List Char} (h : noMarkerB l = true) :
    noMarkerB (rtrimL l) = true := by
  obtain ⟨w, hw, hl⟩ := rtrim_decomp l
  rw [hl] at h
  exact noMarkerB_append_left w h

/-- A newline head never starts a marker. -/
theorem markerAt_cons_newline (x : List Char) : markerAt ('\n' :: x) = none := rfl

/-- Prepending a newline preserves marker-freeness. -/
theorem noMarkerB_cons_newline {x : List Char} (h : noMarkerB x = true) :
    noMarkerB ('\n' :: x) = true := by
  simp only [noMarkerB, markerAt_cons_newline, Option.isNone_none, Bool.true_and]
  exact h

/-- Shape facts about a marker match: the remainder is at least ten
characters shorter, and the captured id is a non-empty digit run. -/
theorem markerAt_some_length {l d r : List Char} (h : markerAt l = some (d, r)) :
    r.length + 10 ≤ l.length ∧ d ≠ [] ∧ (∀ c ∈ d, isDigitChar c = true) := by
  simp only [markerAt] at h
  by_cases hcl : ciLeads "Scenario ".data l = true
  · rw [if_pos hcl] at h
    have h9 : 9 ≤ l.length := by simpa using ciLeads_length hcl
    by_cases hdig : (l.drop 9).takeWhile isDigitChar = []
    · rw [if_pos hdig] at h
      cases h
    · rw [if_neg hdig] at h
      have hdglen : ((l.drop 9).takeWhile isDigitChar).length ≤ (l.drop 9).length :=
        (List.takeWhile_sublist _).length_le
      have hdgpos : 1 ≤ ((l.drop 9).takeWhile isDigitChar).length := by
        cases hx : (l.drop 9).takeWhile isDigitChar with
        | nil => exact absurd hx hdig
        | cons a b => simp
      have hlen9 : (l.drop 9).length = l.length - 9 := by
        rw [List.length_drop]
      split at h
      · rename_i rest3 heq
        cases h
        have hlen := congrArg List.length heq
        simp only [List.length_drop, List.length_cons] at hlen
        refine ⟨by omega, hdig, fun c hc => List.mem_takeWhile_imp hc⟩
      · rename_i rest2 hne
        cases h
        refine ⟨?_, hdig, fun c hc => List.mem_takeWhile_imp hc⟩
        simp only [List.length_drop]
        omega
  · rw [if_neg hcl] at h
    cases h

/-- The first component of a scan is a marker-free prefix of the
input. -/
theorem scan_fst_spec : ∀ (fuel : Nat) (l : List Char), l.length ≤ fuel →
    (∃ t, l = (splitScenarioScan fuel l).1 ++ t) ∧
      noMarkerB (splitScenarioScan fuel l).1 = true
  | 0, l, h => by
    have hl : l = [] := List.length_eq_zero.mp (Nat.le_zero.mp h)
    subst hl
    exact ⟨⟨[], rfl⟩, rfl⟩
  | fuel + 1, [], _ => ⟨⟨[], rfl⟩, rfl⟩
  | fuel + 1, c :: rest, h => by
    cases hma : markerAt (c :: rest) with
    | some dr =>
      obtain ⟨digits, remainder⟩ := dr
      simp only [splitScenarioScan, hma]
      exact ⟨⟨c :: rest, rfl⟩, rfl⟩
    | none =>
      simp only [splitScenarioScan, hma]
      have hrest : rest.length ≤ fuel := by
        simp only [List.length_cons] at h
        omega
      obtain ⟨⟨t, ht⟩, hnm⟩ := scan_fst_spec fuel rest hrest
      refine ⟨⟨t, by rw [List.cons_append, ← ht]⟩, ?_⟩
      simp only [noMarkerB, Bool.and_eq_true]
      refine ⟨?_, hnm⟩
      rw [Option.isNone_iff_eq_none]
      apply markerAt_none_of_front (x := c :: (splitScenarioScan fuel rest).1) (t := t)
      have harr : (c :: (splitScenarioScan fuel rest).1) ++ t = c :: rest := by
        rw [List.cons_append, ← ht]
      rw [harr]
      exact hma
  termination_by fuel l => fuel

/-- Every captured pair of a scan has a non-empty digit id and a
marker-free following piece. -/
theorem scan_pairs_spec : ∀ (fuel : Nat) (l : List Char), l.length ≤ fuel →
    ∀ d p, (d, p) ∈ (splitScenarioScan fuel l).2 →
      d ≠ [] ∧ (∀ c ∈ d, isDigitChar c = true) ∧ noMarkerB p = true
  | 0, l, _, d, p, hmem => by simp [splitScenarioScan] at hmem
  | fuel + 1, [], _, d, p, hmem => by simp [splitScenarioScan] at hmem
  | fuel + 1, c :: rest, h, d, p, hmem => by
    cases hma : markerAt (c :: rest) with
    | some dr =>
      obtain ⟨digits, remainder⟩ := dr
      simp only [splitScenarioScan, hma, List.mem_cons] at hmem
      have hml := markerAt_some_length hma
      have hrem : remainder.length ≤ fuel := by
        have hlen := hml.1
        simp only [List.length_cons] at hlen h
        omega
      rcases hmem with heq | hmem
      · have hd : d = digits := (Prod.mk.injEq _ _ _ _ ▸ heq).1
        have hp : p = (splitScenarioScan fuel remainder).1 :=
          (Prod.mk.injEq _ _ _ _ ▸ heq).2
        subst hd
        subst hp
        exact ⟨hml.2.1, hml.2.2, (scan_fst_spec fuel remainder hrem).2⟩
      · exact scan_pairs_spec fuel remainder hrem d p hmem
    | none =>
      simp only [splitScenarioScan, hma] at hmem
      have hrest : rest.length ≤ fuel := by
        simp only [List.length_cons] at h
        omega
      exact scan_pairs_spec fuel rest hrest d p hmem
  termination_by fuel l => fuel

/-- Every reconstructed block comes from a captured pair. -/
theorem collectBlocks_mem : ∀ {ps : List (List Char × List Char)} {b : List Char},
    b ∈ collectBlocks ps → ∃ d p, (d, p) ∈ ps ∧ b = mkBlockL d p ∧ d ≠ [] ∧ p ≠ []
  | [], b, hb => by simp [collectBlocks] at hb
  | (d0, p0) :: ps, b, hb => by
    simp only [collectBlocks] at hb
    by_cases hcond : (d0 ≠ [] && p0 ≠ []) = true
    · rw [if_pos hcond] at hb
      have hd0 : d0 ≠ [] := by
        intro hh
        rw [hh] at hcond
        simp at hcond
      have hp0 : p0 ≠ [] := by
        intro hh
        rw [hh] at hcond
        simp at hcond
      rcases List.mem_cons.mp hb with heq | hmem
      · exact ⟨d0, p0, by simp, heq, hd0, hp0⟩
      · obtain ⟨d, p, h1, h2, h3, h4⟩ := collectBlocks_mem hmem
        exact ⟨d, p, by simp [h1], h2, h3, h4⟩
    · rw [if_neg hcond] at hb
      obtain ⟨d, p, h1, h2, h3, h4⟩ := collectBlocks_mem hb
      exact ⟨d, p, by simp [h1], h2, h3, h4⟩

/-- Every detected block is a reconstructed `Scenario id:\n content`
with a non-empty digit id and non-empty, marker-free content. -/
theorem blocks_shape {ct b : List Char} (hb : b ∈ scenarioBlocksOf ct) :
    ∃ id content, b = mkBlockL id content ∧ id ≠ [] ∧
      (∀ c ∈ id, isDigitChar c = true) ∧ content ≠ [] ∧ noMarkerB content = true := by
  unfold scenarioBlocksOf at hb
  obtain ⟨d, p, hmem, hbe, hdne, hpne⟩ := collectBlocks_mem hb
  have hspec := scan_pairs_spec ct.length ct (le_refl _) d p hmem
  exact ⟨d, p, hbe, hdne, hspec.2.1, hpne, hspec.2.2⟩

/-- A reconstructed block starts with the literal `S`. -/
theorem mkBlock_cons (id z : List Char) :
    mkBlockL id z = 'S' :: ("cenario ".data ++ id ++ ':' :: '\n' :: z) := rfl

/-- Scan of a text that is one marker followed by marker-free
content. -/
theorem scan_marker_noMarker {l d rem : List Char} (fuel : Nat)
    (hma : markerAt l = some (d, rem)) (hnm : noMarkerB rem = true)
    (hfuel : 1 ≤ fuel) :
    splitScenarioScan fuel l = ([], [(d, rem)]) := by
  cases fuel with
  | zero => omega
  | succ fuel' =>
    cases l with
    | nil =>
      rw [show markerAt [] = none from rfl] at hma
      cases hma
    | cons c rest =>
      simp only [splitScenarioScan, hma]
      rw [scan_noMarker fuel' rem hnm]

/-- Left trimming does not touch a reconstructed block. -/
theorem ltrim_mkBlock (id z : List Char) : ltrimL (mkBlockL id z) = mkBlockL id z := by
  rw [mkBlock_cons]
  unfold ltrimL
  rw [List.dropWhile_cons_of_neg (by decide)]

/-- Trimming a reconstructed block right-trims its content. -/
theorem trim_mkBlock (id content : List Char) (hr : rtrimL content ≠ []) :
    trimL (mkBlockL id content) = mkBlockL id (rtrimL content) := by
  have h2 : rtrimL ('\n' :: content) = '\n' :: rtrimL content :=
    rtrim_cons_of_ne_nil _ _ hr
  have h1 : rtrimL (':' :: '\n' :: content) = ':' :: '\n' :: rtrimL content := by
    rw [rtrim_cons_of_ne_nil _ _ (by rw [h2]; simp), h2]
  unfold trimL
  rw [ltrim_mkBlock]
  show rtrimL (("Scenario ".data ++ id) ++ (':' :: '\n' :: content)) = _
  rw [rtrim_append_of_ne_nil _ _ (by rw [h1]; simp), h1]
  rfl

/-- The parser cleanup of a reconstructed block keeps it, with the
content right-trimmed. -/
theorem cleanedTextOf_mkBlock (id content : List Char) (hr : rtrimL content ≠ []) :
    cleanedTextOf ⟨mkBlockL id content⟩ = some (mkBlockL id (rtrimL content)) := by
  simp only [cleanedTextOf]
  rw [trim_mkBlock id content hr]
  rw [if_pos (show leadsL "Scenario".data (mkBlockL id (rtrimL content)) = true from rfl)]

/-- Splitting a single reconstructed block finds exactly that block,
with one newline inserted between the marker and the content. -/
theorem scenarioBlocksOf_mkBlock (id z : List Char) (hid : id ≠ [])
    (hdig : ∀ c ∈ id, isDigitChar c = true) (hnm : noMarkerB z = true) :
    scenarioBlocksOf (mkBlockL id z) = [mkBlockL id ('\n' :: z)] := by
  unfold scenarioBlocksOf
  rw [scan_marker_noMarker _ (markerAt_mkBlock id z hid hdig)
    (noMarkerB_cons_newline hnm) (by rw [mkBlock_cons]; simp)]
  simp only [collectBlocks]
  rw [if_pos (by simp [hid])]

/-- Re-running `parseScenarios` on a reconstructed block yields the
single candidate obtained from the re-split block. -/
theorem parse_mkBlock (id content : List Char) (format : String)
    (hid : id ≠ []) (hdig : ∀ c ∈ id, isDigitChar c = true)
    (hnm : noMarkerB content = true) (hr : rtrimL content ≠ []) :
    parseScenarios ⟨mkBlockL id content⟩ format =
      [processBlockCore format (mkBlockL id ('\n' :: rtrimL content))] := by
  unfold parseScenarios
  rw [cleanedTextOf_mkBlock id content hr]
  simp only []
  rw [scenarioBlocksOf_mkBlock id (rtrimL content) hid hdig (noMarkerB_rtrim hnm)]
  simp

/-- Bool-to-arithmetic characterisation of `ciEq`. -/
theorem ciEq_true_iff (p c : Char) : ciEq p c = true ↔
    (p.toNat = c.toNat ∨ ((65 ≤ p.toNat ∧ p.toNat ≤ 90) ∧ c.toNat = p.toNat + 32) ∨
      ((65 ≤ c.toNat ∧ c.toNat ≤ 90) ∧ p.toNat = c.toNat + 32)) := by
  simp only [ciEq, isUpperChar, Bool.or_eq_true, Bool.and_eq_true, decide_eq_true_eq]
  tauto

/-- The term `Q` never matches a digit case-insensitively. -/
theorem ciEq_q_digit {d : Char} (hd : isDigitChar d = true) : ciEq 'Q' d = false := by
  have hdn : 48 ≤ d.toNat ∧ d.toNat ≤ 57 := by
    simpa [isDigitChar, Bool.and_eq_true, decide_eq_true_eq] using hd
  rw [Bool.eq_false_iff, Ne, ciEq_true_iff]
  have hqv : ('Q').toNat = 81 := rfl
  omega

/-- The term `A` never matches a digit case-insensitively. -/
theorem ciEq_a_digit {d : Char} (hd : isDigitChar d = true) : ciEq 'A' d = false := by
  have hdn : 48 ≤ d.toNat ∧ d.toNat ≤ 57 := by
    simpa [isDigitChar, Bool.and_eq_true, decide_eq_true_eq] using hd
  rw [Bool.eq_false_iff, Ne, ciEq_true_iff]
  have hav : ('A').toNat = 65 := rfl
  omega

/-- The term `Question:` matches nowhere inside the fixed `Scenario ` prefix. -/
theorem ciLeads_q_scenario_false (i : Nat) (hi : i < 9) (y : List Char) :
    ciLeads "Question:".data ("Scenario ".data.drop i ++ y) = false := by
  interval_cases i <;> rfl

/-- The term `Answer:` matches nowhere inside the fixed `Scenario ` prefix. -/
theorem ciLeads_a_scenario_false (i : Nat) (hi : i < 9) (y : List Char) :
    ciLeads "Answer:".data ("Scenario ".data.drop i ++ y) = false := by
  interval_cases i <;> rfl

/-- A pattern whose head rejects digits matches nowhere inside a digit
run. -/
theorem ciLeads_pat_digits_false {p₀ : Char} (ps : List Char)
    (hp : ∀ d, isDigitChar d = true → ciEq p₀ d = false)
    (id : List Char) (hdig : ∀ c ∈ id, isDigitChar c = true)
    (i : Nat) (hi : i < id.length) (y : List Char) :
    ciLeads (p₀ :: ps) (id.drop i ++ y) = false := by
  cases hd : id.drop i with
  | nil =>
    have := List.drop_eq_nil_iff_le.mp hd
    omega
  | cons d rest =>
    have hdm : d ∈ id := by
      have hmem : d ∈ id.drop i := by rw [hd]; simp
      exact List.mem_of_mem_drop hmem
    rw [List.cons_append]
    exact ciLeads_false_head _ _ (hp d (hdig d hdm))

/-- The term `findCI` shifts past a region that matches nowhere. -/
theorem findCI_shift_M (pat : List Char) : ∀ (M : List Char) (y : List Char),
    (∀ i, i < M.length → ciLeads pat (M.drop i ++ y) = false) →
    findCI pat (M ++ y) = (findCI pat y).map (· + M.length)
  | [], y, _ => by
    simp only [List.nil_append, List.length_nil]
    cases findCI pat y <;> simp
  | c :: M', y, H => by
    have h0 : ciLeads pat (c :: (M' ++ y)) = false := by
      have := H 0 (by simp)
      simpa using this
    rw [List.cons_append, findCI_cons_false pat c (M' ++ y) h0]
    rw [findCI_shift_M pat M' y (fun i hi => by
      have := H (i + 1) (by simpa using Nat.succ_lt_succ hi)
      simpa using this)]
    rw [option_map_add_add]
    simp only [List.length_cons]

/-- The term `Question:` matches nowhere inside a digit run. -/
theorem ciLeads_q_digits_false (id : List Char) (hdig : ∀ c ∈ id, isDigitChar c = true)
    (i : Nat) (hi : i < id.length) (y : List Char) :
    ciLeads "Question:".data (id.drop i ++ y) = false := by
  have h : "Question:".data = 'Q' :: "uestion:".data := rfl
  rw [h]
  exact ciLeads_pat_digits_false _ (fun d hd => ciEq_q_digit hd) id hdig i hi y

/-- The term `Answer:` matches nowhere inside a digit run. -/
theorem ciLeads_a_digits_false (id : List Char) (hdig : ∀ c ∈ id, isDigitChar c = true)
    (i : Nat) (hi : i < id.length) (y : List Char) :
    ciLeads "Answer:".data (id.drop i ++ y) = false := by
  have h : "Answer:".data = 'A' :: "nswer:".data := rfl
  rw [h]
  exact ciLeads_pat_digits_false _ (fun d hd => ciEq_a_digit hd) id hdig i hi y

/-- The term `findCI` for `Question:` over a reconstructed block: every
occurrence lies in the content, shifted by the marker length. -/
theorem findCI_q_block (id y : List Char) (hdig : ∀ c ∈ id, isDigitChar c = true) :
    findCI "Question:".data (mkBlockL id y) =
      (findCI "Question:".data ('\n' :: y)).map (· + (10 + id.length)) := by
  have hassoc : mkBlockL id y = "Scenario ".data ++ (id ++ ':' :: '\n' :: y) := by
    unfold mkBlockL
    rw [List.append_assoc]
  rw [hassoc]
  rw [findCI_shift_M _ _ _ (fun i hi => ciLeads_q_scenario_false i (by simpa using hi) _)]
  rw [findCI_shift_M _ _ _ (fun i hi => ciLeads_q_digits_false id hdig i hi _)]
  rw [findCI_cons_false "Question:".data ':' ('\n' :: y) rfl]
  cases findCI "Question:".data ('\n' :: y) with
  | none => rfl
  | some k => simp; omega

/-- The term `findCI` for `Answer:` over a reconstructed block. -/
theorem findCI_a_block (id y : List Char) (hdig : ∀ c ∈ id, isDigitChar c = true) :
    findCI "Answer:".data (mkBlockL id y) =
      (findCI "Answer:".data ('\n' :: y)).map (· + (10 + id.length)) := by
  have hassoc : mkBlockL id y = "Scenario ".data ++ (id ++ ':' :: '\n' :: y) := by
    unfold mkBlockL
    rw [List.append_assoc]
  rw [hassoc]
  rw [findCI_shift_M _ _ _ (fun i hi => ciLeads_a_scenario_false i (by simpa using hi) _)]
  rw [findCI_shift_M _ _ _ (fun i hi => ciLeads_a_digits_false id hdig i hi _)]
  rw [findCI_cons_false "Answer:".data ':' ('\n' :: y) rfl]
  cases findCI "Answer:".data ('\n' :: y) with
  | none => rfl
  | some k => simp; omega

/-- The term `findCI` for `Question:` ignores right trimming. -/
theorem findCI_q_rtrim (l : List Char) :
    findCI "Question:".data (rtrimL l) = findCI "Question:".data l :=
  findCI_rtrim "uestion:".data (by decide) (by decide) l

/-- The term `findCI` for `Answer:` ignores right trimming. -/
theorem findCI_a_rtrim (l : List Char) :
    findCI "Answer:".data (rtrimL l) = findCI "Answer:".data l :=
  findCI_rtrim "nswer:".data (by decide) (by decide) l

/-- The head of a `dropWhile` result fails the predicate. -/
theorem dropWhile_head_false {p : Char → Bool} : ∀ {v : List Char} {c : Char} {t : List Char},
    v.dropWhile p = c :: t → p c = false
  | [], _, _, h => by cases h
  | a :: v', c, t, h => by
    by_cases ha : p a = true
    · rw [List.dropWhile_cons_of_pos ha] at h
      exact dropWhile_head_false h
    · rw [List.dropWhile_cons_of_neg ha] at h
      cases h
      simpa using ha

/-- Right trim keeps a list ending in a non-whitespace character. -/
theorem rtrim_of_last_not_ws (u : List Char) (c : Char) (hc : wsChar c = false) :
    rtrimL (u ++ [c]) = u ++ [c] := by
  unfold rtrimL ltrimL
  rw [List.reverse_append]
  simp only [List.reverse_cons, List.reverse_nil, List.nil_append, List.cons_append,
    List.nil_append]
  rw [List.dropWhile_cons_of_neg (by simp [hc])]
  rw [List.reverse_cons, List.reverse_reverse]

/-- A non-empty right trim ends in a non-whitespace character. -/
theorem rtrim_decomp_last (l : List Char) (h : rtrimL l ≠ []) :
    ∃ u c, rtrimL l = u ++ [c] ∧ wsChar c = false := by
  unfold rtrimL ltrimL at *
  cases hd : l.reverse.dropWhile wsChar with
  | nil => rw [hd] at h; simp at h
  | cons c t =>
    refine ⟨t.reverse, c, ?_, dropWhile_head_false hd⟩
    rw [List.reverse_cons]

/-- A right-trimmed list stays right-trimmed after a `drop`. -/
theorem rtrim_drop_self (l : List Char) (m : Nat) :
    rtrimL ((rtrimL l).drop m) = (rtrimL l).drop m := by
  by_cases h0 : rtrimL l = []
  · rw [h0, List.drop_nil]
    rfl
  · obtain ⟨u, c, huc, hc⟩ := rtrim_decomp_last l h0
    rw [huc]
    rcases Nat.lt_or_ge m (u.length + 1) with hlt | hge
    · rw [drop_append_of_le m u [c] (by omega)]
      exact rtrim_of_last_not_ws _ c hc
    · have hlen : (u ++ [c]).length = u.length + 1 := by simp
      have hdp : (u ++ [c]).drop m = [] := by
        apply List.drop_eq_nil_of_le
        omega
      rw [hdp]
      rfl

/-- Dropping within the right-trimmed part commutes with trimming. -/
theorem drop_rtrim (l : List Char) (m : Nat) (h : m ≤ (rtrimL l).length) :
    (rtrimL l).drop m = rtrimL (l.drop m) := by
  obtain ⟨w, hw, hl⟩ := rtrim_decomp l
  conv_rhs => rw [hl]
  rw [show (rtrimL l ++ w).drop m = (rtrimL l).drop m ++ w from drop_append_of_le m _ w h]
  rw [rtrim_append_ws _ w hw, rtrim_drop_self l m]

/-- The term `findMarker` on a reconstructed block matches at the head. -/
theorem findMarker_mkBlock (id z : List Char) (hid : id ≠ [])
    (hdig : ∀ c ∈ id, isDigitChar c = true) :
    findMarker (mkBlockL id z) = some (id, '\n' :: z) := by
  have h := markerAt_mkBlock id z hid hdig
  rw [mkBlock_cons] at h ⊢
  simp only [findMarker, h]

/-- A reconstructed block as marker-prefix plus content. -/
theorem mkBlock_eq_M_append (id y : List Char) :
    mkBlockL id y = ("Scenario ".data ++ id ++ [':', '\n']) ++ y := by
  unfold mkBlockL
  simp [List.append_assoc]

/-- Dropping past the marker of a reconstructed block. -/
theorem mkBlock_drop (id y : List Char) (n : Nat) :
    (mkBlockL id y).drop (11 + id.length + n) = y.drop n := by
  rw [mkBlock_eq_M_append]
  have hlen : ("Scenario ".data ++ id ++ [':', '\n']).length = 11 + id.length := by
    simp
    omega
  rw [← hlen]
  exact drop_append_add _ y n

/-- The extracted id of a reconstructed block is its id. -/
theorem idOf_mkBlock (id z : List Char) (hid : id ≠ [])
    (hdig : ∀ c ∈ id, isDigitChar c = true) :
    idOf (mkBlockL id z) = ⟨id⟩ := by
  unfold idOf
  rw [findMarker_mkBlock id z hid hdig]

/-- The trimmed answer-bounded capture is stable under right trimming
of the capture region. -/
theorem trim_take_stop_rtrim (X : List Char) :
    trimL ((rtrimL X).take ((findCI "Answer:".data (rtrimL X)).getD (rtrimL X).length)) =
      trimL (X.take ((findCI "Answer:".data X).getD X.length)) := by
  rw [findCI_a_rtrim]
  cases hf : findCI "Answer:".data X with
  | none =>
    simp only [Option.getD_none]
    rw [List.take_length, List.take_length]
    exact trim_rtrim X
  | some j =>
    simp only [Option.getD_some]
    have hb : 7 + j ≤ (rtrimL X).length := by
      have h1 : findCI "Answer:".data (rtrimL X) = some j := by
        rw [findCI_a_rtrim]
        exact hf
      have h2 := findCI_some_bound h1
      have h7 : ("Answer:".data).length = 7 := rfl
      omega
    obtain ⟨w, hw, hX⟩ := rtrim_decomp X
    conv_rhs => rw [hX, take_append_of_le j _ w (by omega)]

/-- The trimmed presentation capture (up to the first `Question:` or
`Answer:` heading) agrees between the original block tail and the
re-split tail with its extra newline and right-trimmed content. -/
theorem pres_core_eq (z : List Char) :
    trimL (('\n' :: '\n' :: rtrimL z).take (headingStop ('\n' :: '\n' :: rtrimL z))) =
      trimL (('\n' :: z).take (headingStop ('\n' :: z))) := by
  have hwnl : wsChar '\n' = true := rfl
  unfold headingStop
  rw [findCI_cons_false "Question:".data '\n' ('\n' :: rtrimL z) rfl,
    findCI_cons_false "Question:".data '\n' (rtrimL z) rfl,
    findCI_q_rtrim z,
    findCI_cons_false "Question:".data '\n' z rfl,
    findCI_cons_false "Answer:".data '\n' ('\n' :: rtrimL z) rfl,
    findCI_cons_false "Answer:".data '\n' (rtrimL z) rfl,
    findCI_a_rtrim z,
    findCI_cons_false "Answer:".data '\n' z rfl]
  obtain ⟨w, hw, hz⟩ := rtrim_decomp z
  have hqb : ∀ kq, findCI "Question:".data z = some kq → kq + 9 ≤ (rtrimL z).length := by
    intro kq hkq
    have h1 : findCI "Question:".data (rtrimL z) = some kq := by
      rw [findCI_q_rtrim]
      exact hkq
    have h2 := findCI_some_bound h1
    have h9 : ("Question:".data).length = 9 := rfl
    omega
  have hab : ∀ ka, findCI "Answer:".data z = some ka → ka + 7 ≤ (rtrimL z).length := by
    intro ka hka
    have h1 : findCI "Answer:".data (rtrimL z) = some ka := by
      rw [findCI_a_rtrim]
      exact hka
    have h2 := findCI_some_bound h1
    have h7 : ("Answer:".data).length = 7 := rfl
    omega
  have htake : ∀ m, m ≤ (rtrimL z).length →
      trimL (('\n' :: '\n' :: rtrimL z).take (m + 2)) =
        trimL (('\n' :: z).take (m + 1)) := by
    intro m hm
    rw [show m + 2 = (m + 1) + 1 from rfl, List.take_succ_cons, List.take_succ_cons,
      List.take_succ_cons]
    rw [trim_cons_ws _ hwnl, trim_cons_ws _ hwnl, trim_cons_ws _ hwnl]
    conv_rhs => rw [hz, take_append_of_le m _ w hm]
  cases hq : findCI "Question:".data z with
  | none =>
    cases ha : findCI "Answer:".data z with
    | none =>
      simp only [Option.map_none']
      rw [List.take_length, List.take_length]
      rw [trim_cons_ws _ hwnl, trim_cons_ws _ hwnl, trim_cons_ws _ hwnl, trim_rtrim]
    | some ka =>
      simp only [Option.map_none', Option.map_some']
      exact htake ka (by have := hab ka ha; omega)
  | some kq =>
    cases ha : findCI "Answer:".data z with
    | none =>
      simp only [Option.map_none', Option.map_some']
      exact htake kq (by have := hqb kq hq; omega)
    | some ka =>
      simp only [Option.map_some']
      have h2 : min (kq + 1 + 1) (ka + 1 + 1) = min kq ka + 2 := by omega
      have h1 : min (kq + 1) (ka + 1) = min kq ka + 1 := by omega
      rw [h2, h1]
      exact htake (min kq ka) (by have := hqb kq hq; omega)

/-- The presentation field agrees between the original block and its
re-split form. -/
theorem presOf_mkBlock_eq (id content : List Char) (hid : id ≠ [])
    (hdig : ∀ c ∈ id, isDigitChar c = true) :
    presOf (mkBlockL id ('\n' :: rtrimL content)) = presOf (mkBlockL id content) := by
  unfold presOf presentationRaw
  rw [findMarker_mkBlock id ('\n' :: rtrimL content) hid hdig,
    findMarker_mkBlock id content hid hdig]
  simp only [Option.map_some', fieldOf]
  exact pres_core_eq content

/-- The raw question field agrees between the original block and its
re-split form. -/
theorem q0Of_mkBlock_eq (id content : List Char)
    (hdig : ∀ c ∈ id, isDigitChar c = true) :
    q0Of (mkBlockL id ('\n' :: rtrimL content)) = q0Of (mkBlockL id content) := by
  unfold q0Of questionRaw
  rw [findCI_q_block id ('\n' :: rtrimL content) hdig, findCI_q_block id content hdig,
    findCI_cons_false "Question:".data '\n' ('\n' :: rtrimL content) rfl,
    findCI_cons_false "Question:".data '\n' (rtrimL content) rfl,
    findCI_q_rtrim content,
    findCI_cons_false "Question:".data '\n' content rfl]
  cases hq : findCI "Question:".data content with
  | none => rfl
  | some k =>
    simp only [Option.map_some', fieldOf]
    have hkb : k + 9 ≤ (rtrimL content).length := by
      have h1 : findCI "Question:".data (rtrimL content) = some k := by
        rw [findCI_q_rtrim]
        exact hq
      have h2 := findCI_some_bound h1
      have h9 : ("Question:".data).length = 9 := rfl
      omega
    have hd1 : (mkBlockL id content).drop (k + 1 + (10 + id.length) + 9) =
        content.drop (k + 9) := by
      rw [show k + 1 + (10 + id.length) + 9 = 11 + id.length + (k + 9) from by omega]
      exact mkBlock_drop id content (k + 9)
    have hd2 : (mkBlockL id ('\n' :: rtrimL content)).drop
        (k + 1 + 1 + (10 + id.length) + 9) = rtrimL (content.drop (k + 9)) := by
      rw [show k + 1 + 1 + (10 + id.length) + 9 = 11 + id.length + ((k + 9) + 1) from by
        omega]
      rw [mkBlock_drop id ('\n' :: rtrimL content) ((k + 9) + 1)]
      rw [List.drop_succ_cons]
      exact drop_rtrim content (k + 9) hkb
    rw [hd1, hd2]
    exact trim_take_stop_rtrim (content.drop (k + 9))

/-- The raw answer field agrees between the original block and its
re-split form. -/
theorem a0Of_mkBlock_eq (id content : List Char)
    (hdig : ∀ c ∈ id, isDigitChar c = true) :
    a0Of (mkBlockL id ('\n' :: rtrimL content)) = a0Of (mkBlockL id content) := by
  unfold a0Of answerRaw
  rw [findCI_a_block id ('\n' :: rtrimL content) hdig, findCI_a_block id content hdig,
    findCI_cons_false "Answer:".data '\n' ('\n' :: rtrimL content) rfl,
    findCI_cons_false "Answer:".data '\n' (rtrimL content) rfl,
    findCI_a_rtrim content,
    findCI_cons_false "Answer:".data '\n' content rfl]
  cases ha : findCI "Answer:".data content with
  | none => rfl
  | some k =>
    simp only [Option.map_some', fieldOf]
    have hkb : k + 7 ≤ (rtrimL content).length := by
      have h1 : findCI "Answer:".data (rtrimL content) = some k := by
        rw [findCI_a_rtrim]
        exact ha
      have h2 := findCI_some_bound h1
      have h7 : ("Answer:".data).length = 7 := rfl
      omega
    have hd1 : (mkBlockL id content).drop (k + 1 + (10 + id.length) + 7) =
        content.drop (k + 7) := by
      rw [show k + 1 + (10 + id.length) + 7 = 11 + id.length + (k + 7) from by omega]
      exact mkBlock_drop id content (k + 7)
    have hd2 : (mkBlockL id ('\n' :: rtrimL content)).drop
        (k + 1 + 1 + (10 + id.length) + 7) = rtrimL (content.drop (k + 7)) := by
      rw [show k + 1 + 1 + (10 + id.length) + 7 = 11 + id.length + ((k + 7) + 1) from by
        omega]
      rw [mkBlock_drop id ('\n' :: rtrimL content) ((k + 7) + 1)]
      rw [List.drop_succ_cons]
      exact drop_rtrim content (k + 7) hkb
    rw [hd1, hd2]
    exact trim_rtrim (content.drop (k + 7))

/-- The whole per-block processing agrees between the original block
and its re-split form. -/
theorem processBlock_mkBlock_eq (id content : List Char) (format : String)
    (hid : id ≠ []) (hdig : ∀ c ∈ id, isDigitChar c = true) :
    processBlockCore format (mkBlockL id ('\n' :: rtrimL content)) =
      processBlockCore format (mkBlockL id content) := by
  simp only [processBlockCore]
  rw [idOf_mkBlock id ('\n' :: rtrimL content) hid hdig, idOf_mkBlock id content hid hdig,
    presOf_mkBlock_eq id content hid hdig, q0Of_mkBlock_eq id content hdig,
    a0Of_mkBlock_eq id content hdig]

/-- A scenario with an empty answer never validates. -/
theorem validate_answer_empty_ne_none (s : Scenario) (format : String)
    (h : s.answer = "") : validateScenario s format ≠ none := by
  have hmem : "Missing or too short answer section" ∈ validationErrors s format := by
    unfold validationErrors
    rw [h]
    simp
  intro hcontra
  unfold validateScenario at hcontra
  by_cases he : validationErrors s format = []
  · rw [he] at hmem
    exact absurd hmem (List.not_mem_nil _)
  · rw [if_neg he] at hcontra
    exact Option.noConfusion hcontra

/-- An empty raw answer field yields an empty answer in the processed
scenario, whatever the format. -/
theorem processBlock_answer_empty {format : String} {b : List Char} (h : a0Of b = []) :
    (processBlockCore format b).answer = "" := by
  simp only [processBlockCore]
  by_cases hf : format = "osce"
  · simp [hf, h, osceRefine, findOsceHead]
  · simp [hf, h]

/-- C10: extraction is idempotent on already-well-formed input: for
every block detected while extracting any raw text, if the scenario
processed from that block is accepted by validation, then re-running
the whole extraction on the reconstructed block text yields exactly
that one equivalent scenario (same id, presentation, question,
answer, options and marking criteria). -/
theorem c10_extraction_idempotent (text format : String) (b : List Char)
    (hb : b ∈ parseBlocksOf text)
    (hacc : validateScenario (processBlockCore format b) format = none) :
    parseScenarios ⟨b⟩ format = [processBlockCore format b] := by
  have hshape : ∃ id content, b = mkBlockL id content ∧ id ≠ [] ∧
      (∀ c ∈ id, isDigitChar c = true) ∧ content ≠ [] ∧ noMarkerB content = true := by
    unfold parseBlocksOf at hb
    cases hct : cleanedTextOf text with
    | none =>
      rw [hct] at hb
      simp at hb
    | some ct =>
      rw [hct] at hb
      exact blocks_shape hb
  obtain ⟨id, content, hbe, hid, hdig, hcne, hnm⟩ := hshape
  subst hbe
  have hr : rtrimL content ≠ [] := by
    intro hrnil
    have hallws : ∀ c ∈ content, wsChar c = true := rtrim_nil_allws hrnil
    have hfa : findCI "Answer:".data content = none := by
      rw [show "Answer:".data = 'A' :: "nswer:".data from rfl]
      exact findCI_allws_none _ (by decide) content hallws
    have ha0 : a0Of (mkBlockL id content) = [] := by
      unfold a0Of answerRaw
      rw [findCI_a_block id content hdig,
        findCI_cons_false "Answer:".data '\n' content rfl, hfa]
      rfl
    exact validate_answer_empty_ne_none _ format (processBlock_answer_empty ha0) hacc
  rw [parse_mkBlock id content format hid hdig hnm hr]
  rw [processBlock_mkBlock_eq id content format hid hdig]

/-- C10 witness: the first block detected in the two-block text is
accepted, and re-running extraction on its reconstructed text yields
exactly its scenario. -/
theorem c10_extraction_idempotent_witness :
    parseScenarios
      "Scenario 1:\n A woman with sudden severe headache.\nQuestion: What is the next investigation?\nAnswer: Urgent non contrast CT head to exclude bleeding.\n"
      "long" =
    [processBlockCore "long"
      "Scenario 1:\n A woman with sudden severe headache.\nQuestion: What is the next investigation?\nAnswer: Urgent non contrast CT head to exclude bleeding.\n".data] :=
  c10_extraction_idempotent twoBlockText "long"
    "Scenario 1:\n A woman with sudden severe headache.\nQuestion: What is the next investigation?\nAnswer: Urgent non contrast CT head to exclude bleeding.\n".data
    (by decide) (by decide)

end Medscena
